import Mathlib

/-!
# json-to-markdown-table: the table renderer of `main.go`

A shallow embedding of `GenerateMarkdown`, `getTypeAndExample`, `inferRequired`,
`generateObjectTable` and `generateArrayTable`, followed by the properties of the
rendering.

Modelling conventions.

* A Go `any` is a `Value`: one constructor per dynamic type the program's type
  switches name, plus the nil interface.  `encoding/json` produces `nil`, `bool`,
  `float64`, `string`, allocated `[]any` and allocated `map[string]any` only; the
  typed nil slice and nil map are values too, because `reflect.Zero` builds them.
* A Go map is given by its entries in the order in which the first `range` loop
  over it visits them, and by the entries again in the order of the second loop:
  Go leaves the order of a loop over a map unspecified and does not promise that
  two loops over the same map agree.  In a map that a program can hold the second
  list is a permutation of the first (`Value.wellFormed`).  No map is visited by
  more than two loops in one rendering.
* A `bytes.Buffer` is the `String` of what has been written to it; a function that
  writes to the buffer takes the old content and returns the new one together with
  its returned `error`.
* `fmt.Sprintf("%v", f)` for a `float64` is not modelled: it is the parameter
  `sprintFloat` of the functions that format.
* The scanning and decoding of a JSON text by `encoding/json` is not modelled: it
  is the parameter `decode` of `GenerateMarkdown`.  What `json.Unmarshal` does with
  the decoded value on a target of type `JSONObject` is `unmarshalObject`.  The
  depth limit of its scanner is `withDepthLimit`.
-/

namespace JsonToMarkdown

/-- An IEEE 754 binary64 by its three fields (biased exponent, fraction). -/
structure Float64 where
  sign : Bool
  exponent : Nat
  mantissa : Nat
  deriving DecidableEq, Repr

/-- The float is a NaN. -/
def Float64.isNaN (f : Float64) : Bool :=
  f.exponent == 2047 && f.mantissa != 0

/-- The float is +0 or -0. -/
def Float64.isZero (f : Float64) : Bool :=
  f.exponent == 0 && f.mantissa == 0

/-- Go's `==` on float64: a NaN equals nothing, the two zeros are equal. -/
def Float64.eq (a b : Float64) : Bool :=
  !a.isNaN && !b.isNaN && ((a.isZero && b.isZero) || decide (a = b))

/-- A Go value of interface type `any`, restricted to the dynamic types that
`main.go` distinguishes. -/
inductive Value where
  | nil
  | bool (b : Bool)
  | int (i : Int)
  | int64 (i : Int)
  | float64 (f : Float64)
  | string (s : String)
  | nilSlice
  | slice (elems : List Value)
  | nilMap
  | map (entries : List (String × Value)) (again : List (String × Value))

/-- Go `type JSONObject map[string]any`: `none` is the nil map, `some (es, again)`
an allocated map whose first `range` loop visits the entries `es` in order and whose
second visits them in the order `again`. -/
abbrev JSONObject := Option (List (String × Value) × List (String × Value))

/-- Go `len(m)` of a map. -/
def JSONObject.len : JSONObject → Nat
  | none => 0
  | some m => m.1.length

/-- The entries the first `range` over the map visits, in order (none for the nil
map). -/
def JSONObject.range : JSONObject → List (String × Value)
  | none => []
  | some m => m.1

/-- The entries the second `range` over the map visits, in order. -/
def JSONObject.rangeAgain : JSONObject → List (String × Value)
  | none => []
  | some m => m.2

/-- Go `error`: only its presence matters here. -/
abbrev Error := String

/-- The type assertion `value.(map[string]any)`: the map held, when the dynamic
type is `map[string]any`. -/
def asMap : Value → Option JSONObject
  | .nilMap => some none
  | .map es again => some (some (es, again))
  | _ => none

/-- The type assertion `value.([]any)`: the elements of the slice held (none for
the nil slice), when the dynamic type is `[]any`. -/
def asSlice : Value → Option (List Value)
  | .nilSlice => some []
  | .slice elems => some elems
  | _ => none

/-- The test `value == nil` on an interface value. -/
def Value.isNil : Value → Bool
  | .nil => true
  | _ => false

/-- `reflect.Zero(reflect.TypeOf(value)).Interface()`.  The program evaluates it
for a non-nil interface only (the `||` before it short-circuits); the nil case is
there to make the function total. -/
def zeroOf : Value → Value
  | .nil => .nil
  | .bool _ => .bool false
  | .int _ => .int 0
  | .int64 _ => .int64 0
  | .float64 _ => .float64 ⟨false, 0, 0⟩
  | .string _ => .string ""
  | .nilSlice => .nilSlice
  | .slice _ => .nilSlice
  | .nilMap => .nilMap
  | .map _ _ => .nilMap

mutual
/-- Go `reflect.DeepEqual` on two interface values: different dynamic types are
never equal; a nil slice (map) equals only a nil slice (map); allocated slices are
compared element by element, allocated maps key by key. -/
def deepEqual : Value → Value → Bool
  | .nil, .nil => true
  | .bool a, .bool b => a == b
  | .int a, .int b => a == b
  | .int64 a, .int64 b => a == b
  | .float64 a, .float64 b => Float64.eq a b
  | .string a, .string b => a == b
  | .nilSlice, .nilSlice => true
  | .slice xs, .slice ys => deepEqualSlice xs ys
  | .nilMap, .nilMap => true
  | .map xs _, .map ys _ => xs.length == ys.length && deepEqualMap xs ys
  | _, _ => false
/-- Element-wise comparison of two allocated slices. -/
def deepEqualSlice : List Value → List Value → Bool
  | [], [] => true
  | x :: xs, y :: ys => deepEqual x y && deepEqualSlice xs ys
  | _, _ => false
/-- Every key of the first map is a key of the second with a deeply equal value. -/
def deepEqualMap : List (String × Value) → List (String × Value) → Bool
  | [], _ => true
  | (k, v) :: xs, ys =>
    (match ys.lookup k with
     | some w => deepEqual v w
     | none => false) && deepEqualMap xs ys
end

/-- `inferRequired` (main.go:128-135). -/
def inferRequired (value : Value) : String :=
  if value.isNil || deepEqual value (zeroOf value) then "O" else "M"

/-- The inner type switch of `getTypeAndExample` (main.go:113-120): the data type
after looking at one element of the array. -/
def arrayElemType (dataType : String) : Value → String
  | .string _ => "Array String"
  | .bool _ => "Array Boolean"
  | .int _ => "Array Number"
  | .int64 _ => "Array Number"
  | .float64 _ => "Array Number"
  | _ => dataType

/-- The `case []any` branch of `getTypeAndExample` (main.go:105-121) for a slice
with elements `v`: the data type it ends with. -/
def arrayDataType (v : List Value) : String :=
  let dataType := "Array Object"
  let dataType := if v.length = 0 then "Array" else dataType
  v.foldl arrayElemType dataType

section Rendering

variable (sprintFloat : Float64 → String)

/-- `getTypeAndExample` (main.go:90-125).  The text `fmt.Sprintf("%v", value)` of
line 92 survives in the default branch only, which nil and strings reach: `%v`
prints the nil interface as `<nil>` and a string as itself. -/
def getTypeAndExample (value : Value) : String × String :=
  match value with
  | .int i => ("Number", toString i)
  | .int64 i => ("Number", toString i)
  | .float64 f => ("Number", sprintFloat f)
  | .bool b => ("Boolean", if b then "true" else "false")
  | .nilMap => ("Object", "Refer to sub-structure")
  | .map _ _ => ("Object", "Refer to sub-structure")
  | .nilSlice => (arrayDataType [], "Refer to list")
  | .slice v => (arrayDataType v, "Refer to list")
  | .nil => ("String", "<nil>")
  | .string s => ("String", s)

/-- The first header line written by `generateObjectTable` (main.go:36). -/
def headerLabels : String :=
  "| Parameter  | Required | Data Type | Description      | Example         |\n"

/-- The second header line written by `generateObjectTable` (main.go:37). -/
def headerRule : String :=
  "|------------|----------|-----------|------------------|-----------------|\n"

/-- The row `generateObjectTable` writes for one field (main.go:41-46). -/
def tableRow (key : String) (value : Value) : String :=
  let dataType := (getTypeAndExample sprintFloat value).1
  let exampleText := (getTypeAndExample sprintFloat value).2
  let description := "Field for '" ++ key ++ "'"
  let required := inferRequired value
  "| " ++ key ++ "        | " ++ required ++ "        | " ++ dataType ++ "      | "
    ++ description ++ "              | " ++ exampleText ++ "           |\n"

/-- The body of the loop of `generateArrayTable` (main.go:75-79): `targetObject`
after looking at one element. -/
def selectStep (targetObject : JSONObject) (object : Value) : JSONObject :=
  match asMap object with
  | some jsonObject =>
    if jsonObject.len > targetObject.len then jsonObject else targetObject
  | none => targetObject

/-- The loop of `generateArrayTable` (main.go:73-80): the map it ends with in
`targetObject`, starting from `targetObject`. -/
def selectTarget (targetObject : JSONObject) (data : List Value) : JSONObject :=
  data.foldl selectStep targetObject

/-- A map taken out of an interface value is hardly larger than the value. -/
theorem asMap_sizeOf_le {value : Value} {m : JSONObject} (h : asMap value = some m) :
    sizeOf m ≤ sizeOf value + 1 := by
  cases value <;> simp only [asMap, Option.some.injEq] at h <;> cases h <;> simp
  omega

/-- A slice taken out of an interface value is no larger than the value. -/
theorem asSlice_sizeOf_le {value : Value} {v : List Value} (h : asSlice value = some v) :
    sizeOf v ≤ sizeOf value := by
  cases value <;> simp only [asSlice, Option.some.injEq] at h <;> cases h <;> simp

/-- The loop of `generateArrayTable` keeps its starting map or ends with a map
taken from an element, which is no larger than the array. -/
theorem selectTarget_sizeOf (data : List Value) (t : JSONObject) :
    selectTarget t data = t ∨ sizeOf (selectTarget t data) ≤ sizeOf data := by
  induction data generalizing t with
  | nil => exact Or.inl rfl
  | cons x xs ih =>
    have hstep : selectTarget t (x :: xs) = selectTarget (selectStep t x) xs := rfl
    rw [hstep]
    simp only [List.cons.sizeOf_spec]
    rcases ih (selectStep t x) with h1 | h1
    · rw [h1]
      unfold selectStep
      cases hm : asMap x with
      | none => exact Or.inl rfl
      | some m =>
        have hm1 := asMap_sizeOf_le hm
        by_cases hlen : m.len > t.len
        · simp only [if_pos hlen]; exact Or.inr (by omega)
        · simp only [if_neg hlen]; exact Or.inl trivial
    · exact Or.inr (by omega)

mutual
/-- `generateObjectTable` (main.go:29-69): the buffer after the call and the error
returned. -/
def generateObjectTable (markdown : String) (data : JSONObject) (title : String) :
    String × Option Error :=
  let markdown := if title ≠ "" then markdown ++ ("### " ++ title ++ "\n") else markdown
  let markdown := markdown ++ headerLabels
  let markdown := markdown ++ headerRule
  let markdown := data.range.foldl
    (fun markdown kv => markdown ++ tableRow sprintFloat kv.1 kv.2) markdown
  match nestedTables markdown data.rangeAgain with
  | (markdown, some err) => (markdown, some err)
  | (markdown, none) => (markdown ++ "\n", none)
termination_by 2 * sizeOf data + 1
decreasing_by
  cases data with
  | none => simp [JSONObject.rangeAgain]
  | some m =>
    obtain ⟨es, again⟩ := m
    simp only [JSONObject.rangeAgain, Option.some.sizeOf_spec, Prod.mk.sizeOf_spec]
    omega
/-- The second loop of `generateObjectTable` (main.go:50-64) over the entries still
to visit: the buffer when the loop ends and the error it returns with, if any. -/
def nestedTables (markdown : String) (entries : List (String × Value)) :
    String × Option Error :=
  match entries with
  | [] => (markdown, none)
  | (key, value) :: rest =>
    let r := match h : asMap value with
      | some nestedMap =>
        generateObjectTable markdown nestedMap (key ++ " Structure")
      | none => (markdown, none)
    match r with
    | (markdown, some err) => (markdown, some err)
    | (markdown, none) =>
      let r := match h : asSlice value with
        | some arrayObject =>
          generateArrayTable markdown arrayObject (key ++ " Structure")
        | none => (markdown, none)
      match r with
      | (markdown, some err) => (markdown, some err)
      | (markdown, none) => nestedTables markdown rest
termination_by 2 * sizeOf entries
decreasing_by
  · have hle := asMap_sizeOf_le h
    simp only [List.cons.sizeOf_spec, Prod.mk.sizeOf_spec]
    omega
  · have hle := asSlice_sizeOf_le h
    simp only [List.cons.sizeOf_spec, Prod.mk.sizeOf_spec]
    omega
  · simp only [List.cons.sizeOf_spec, Prod.mk.sizeOf_spec]
    omega
/-- `generateArrayTable` (main.go:71-87). -/
def generateArrayTable (markdown : String) (data : List Value) (title : String) :
    String × Option Error :=
  match h : selectTarget none data with
  | none => (markdown, none)
  | some targetEntries => generateObjectTable markdown (some targetEntries) title
termination_by 2 * sizeOf data + 2
decreasing_by
  rcases selectTarget_sizeOf data none with h1 | h1
  · rw [h] at h1; cases h1
  · rw [h] at h1; omega
end

end Rendering

/-- The kinds of JSON value of the data model the specification is written in. -/
inductive Kind where
  | null
  | boolean
  | number
  | string
  | array
  | object
  deriving DecidableEq, Repr

/-- The kind of a value: the three number types are Numbers, a slice (nil or not)
is an Array, a map (nil or not) an Object. -/
def Value.kind : Value → Kind
  | .nil => .null
  | .bool _ => .boolean
  | .int _ => .number
  | .int64 _ => .number
  | .float64 _ => .number
  | .string _ => .string
  | .nilSlice => .array
  | .slice _ => .array
  | .nilMap => .object
  | .map _ _ => .object

/-- The scalar kinds: Null, String, Number and Boolean. -/
def Kind.isScalar : Kind → Bool
  | .null => true
  | .boolean => true
  | .number => true
  | .string => true
  | _ => false

/-- What the specification calls nil, empty or zero for a scalar: Null, the empty
string, a numeric zero (for a float, either of its two zeros), boolean false. -/
def Value.isEmptyScalar : Value → Bool
  | .nil => true
  | .string s => decide (s = "")
  | .int i => decide (i = 0)
  | .int64 i => decide (i = 0)
  | .float64 f => decide (f.exponent = 0 ∧ f.mantissa = 0)
  | .bool b => decide (b = false)
  | _ => false

/-- The kinds an element of an array is classified by in `getTypeAndExample`:
String, Boolean and Number. -/
def Kind.isClassified : Kind → Bool
  | .string => true
  | .boolean => true
  | .number => true
  | _ => false

/-- The data type the specification gives an array whose classification is decided
by an element of kind `k`. -/
def arrayTypeName : Kind → String
  | .string => "Array String"
  | .boolean => "Array Boolean"
  | .number => "Array Number"
  | _ => "Array Object"

/-- The floats 1 and 2 of the closed examples. -/
def float1 : Float64 := ⟨false, 1023, 0⟩

/-- The float 2. -/
def float2 : Float64 := ⟨false, 1024, 0⟩

/-- A formatter for the closed examples: it prints the floats 1 and 2, the only
ones they hold, as `%v` does. -/
def sprintSample (f : Float64) : String :=
  if f = float1 then "1" else if f = float2 then "2" else "0"

/-- The texts of a list, one after the other. -/
def concat : List String → String
  | [] => ""
  | s :: rest => s ++ concat rest

/-- The heading line of a table: `### <title>` and a line feed, nothing for the
empty title. -/
def headingLine (title : String) : String :=
  if title ≠ "" then "### " ++ title ++ "\n" else ""

/-- The complete rendering of the nested structure of one field: what
`generateObjectTable` writes to an empty buffer for a field holding an Object, what
`generateArrayTable` writes for a field holding an Array, both under the title
`<key> Structure`; nothing for a field of another kind. -/
def childText (sprintFloat : Float64 → String) (kv : String × Value) : String :=
  match asMap kv.2 with
  | some nestedMap => (generateObjectTable sprintFloat "" nestedMap (kv.1 ++ " Structure")).1
  | none =>
    match asSlice kv.2 with
    | some arrayObject =>
      (generateArrayTable sprintFloat "" arrayObject (kv.1 ++ " Structure")).1
    | none => ""

/-- The text of one table with everything below it: heading, the two header lines,
one row per field in the order of the first loop, the renderings of the nested
fields in the order of the second loop, one line feed. -/
def tableText (sprintFloat : Float64 → String) (data : JSONObject) (title : String) :
    String :=
  headingLine title ++ headerLabels ++ headerRule
    ++ concat (data.range.map (fun kv => tableRow sprintFloat kv.1 kv.2))
    ++ concat (data.rangeAgain.map (childText sprintFloat)) ++ "\n"

/-- The header rule as a line, without its line feed. -/
def headerRuleLine : List Char :=
  "|------------|----------|-----------|------------------|-----------------|".data

/-- The number of tables in a text: the number of its lines that are the header
rule, which `generateObjectTable` writes once per call. -/
def tableCount (text : String) : Nat :=
  (text.data.splitOn '\n').count headerRuleLine

/-- The text without a line feed. -/
def noLineFeed (s : String) : Bool :=
  decide ('\n' ∉ s.data)

mutual
/-- No key and no example text anywhere in the value holds a line feed, so that
every row and every heading of its rendering is one line. -/
def Value.lineSafe (sprintFloat : Float64 → String) : Value → Bool
  | .map es again => fieldsLineSafe sprintFloat es && fieldsLineSafe sprintFloat again
  | .slice vs => elemsLineSafe sprintFloat vs
  | _ => true
/-- The fields of an object are line safe, keys and example texts included. -/
def fieldsLineSafe (sprintFloat : Float64 → String) : List (String × Value) → Bool
  | [] => true
  | (k, v) :: rest =>
    noLineFeed k && noLineFeed (getTypeAndExample sprintFloat v).2
      && v.lineSafe sprintFloat && fieldsLineSafe sprintFloat rest
/-- The elements of an array are line safe. -/
def elemsLineSafe (sprintFloat : Float64 → String) : List Value → Bool
  | [] => true
  | x :: xs => x.lineSafe sprintFloat && elemsLineSafe sprintFloat xs
end

mutual
/-- The number of Object values in the tree of a value, at any depth, the value
itself included. -/
def Value.objectCount : Value → Nat
  | .map es _ => 1 + fieldsObjectCount es
  | .nilMap => 1
  | .slice vs => elemsObjectCount vs
  | _ => 0
/-- The Object values in the trees of the fields of an object. -/
def fieldsObjectCount : List (String × Value) → Nat
  | [] => 0
  | (_, v) :: rest => v.objectCount + fieldsObjectCount rest
/-- The Object values in the trees of the elements of an array. -/
def elemsObjectCount : List Value → Nat
  | [] => 0
  | x :: xs => x.objectCount + elemsObjectCount xs
end

mutual
/-- The number of Array values in the tree of a value, at any depth, that hold at
least one Object element. -/
def Value.objectArrayCount : Value → Nat
  | .map es _ => fieldsObjectArrayCount es
  | .slice vs =>
    (if vs.any (fun x => x.kind == Kind.object) then 1 else 0) + elemsObjectArrayCount vs
  | _ => 0
/-- The arrays with an Object element in the trees of the fields of an object. -/
def fieldsObjectArrayCount : List (String × Value) → Nat
  | [] => 0
  | (_, v) :: rest => v.objectArrayCount + fieldsObjectArrayCount rest
/-- The arrays with an Object element in the trees of the elements of an array. -/
def elemsObjectArrayCount : List Value → Nat
  | [] => 0
  | x :: xs => x.objectArrayCount + elemsObjectArrayCount xs
end

/-- One step of choosing the widest Object element of an array, on pairs (number of
fields, number of tables): a pair replaces the choice when it has more fields. -/
def widestStep (best : Nat × Nat) (candidate : Nat × Nat) : Nat × Nat :=
  if candidate.1 > best.1 then candidate else best

/-- The number of tables of the Object element with the greatest number of fields,
the earliest among equals, given the pairs of the Object elements in order; 0 when
no Object element has a field. -/
def widestTables (candidates : List (Nat × Nat)) : Nat :=
  (candidates.foldl widestStep (0, 0)).2

mutual
/-- The number of tables the rendering reaches from a value that is the root or the
value of a field: an Object gives its own table and those reached from its fields (as
the second loop visits them); an
Array gives those of its widest Object element with at least one field, if any; any
other value gives none. -/
def Value.tables : Value → Nat
  | .map _ again => 1 + fieldsTables again
  | .nilMap => 1
  | .slice vs => widestTables (elemsTables vs)
  | _ => 0
/-- The tables reached from the fields of an object. -/
def fieldsTables : List (String × Value) → Nat
  | [] => 0
  | (_, v) :: rest => v.tables + fieldsTables rest
/-- For each Object element of an array, in order, its number of fields and the
number of tables reached from it. -/
def elemsTables : List Value → List (Nat × Nat)
  | [] => []
  | x :: xs =>
    match x with
    | .map es again => (es.length, 1 + fieldsTables again) :: elemsTables xs
    | .nilMap => (0, 1) :: elemsTables xs
    | _ => elemsTables xs
end

/-- The text made of the given lines, each followed by a line feed. -/
def linesText (L : List (List Char)) : List Char :=
  (L.map (fun l => l ++ ['\n'])).flatten

/-- The text is made of complete lines, `n` of which are the header rule. -/
def HasTables (text : String) (n : Nat) : Prop :=
  ∃ L : List (List Char), text.data = linesText L ∧ (∀ l ∈ L, '\n' ∉ l) ∧
    L.count headerRuleLine = n

/-- The tables reached from the map `generateArrayTable` selects. -/
def targetTables : JSONObject → Nat
  | none => 0
  | some m => 1 + fieldsTables m.2

mutual
/-- The value is one a program can hold: in every map of its tree the second loop
visits a permutation of the entries the first loop visits. -/
def Value.wellFormed : Value → Prop
  | .map es again => again.Perm es ∧ fieldsWellFormed es ∧ fieldsWellFormed again
  | .slice vs => elemsWellFormed vs
  | _ => True
/-- The values of the fields are well formed. -/
def fieldsWellFormed : List (String × Value) → Prop
  | [] => True
  | (_, v) :: rest => v.wellFormed ∧ fieldsWellFormed rest
/-- The elements are well formed. -/
def elemsWellFormed : List Value → Prop
  | [] => True
  | x :: xs => x.wellFormed ∧ elemsWellFormed xs
end

/-- The entries of `{"x":1}`. -/
def entriesX : List (String × Value) := [("x", .float64 float1)]

/-- The entries of `{"x":1,"y":2}`. -/
def entriesXY : List (String × Value) := [("x", .float64 float1), ("y", .float64 float2)]

/-- The array `[{"x":1},{"x":1,"y":2}]`. -/
def sampleArray : List Value := [.map entriesX entriesX, .map entriesXY entriesXY]

/-- The entries of `{"list":[{"x":1},{"x":1,"y":2}]}`. -/
def entriesList : List (String × Value) := [("list", .slice sampleArray)]

/-- `json.Unmarshal([]byte(inputJSON), &inputData)` for the nil map `inputData` of
type `JSONObject` (main.go:14-15): the error returned, or the map stored.  The
scanning and decoding of the text is the parameter `decode`, which gives the value
`encoding/json` would store in an `any` (nil, bool, float64, string, allocated slice
or allocated map), or the syntax error.  On a map target `encoding/json` stores
the map of a JSON object, sets the map to nil for `null` without an error, and
returns an `UnmarshalTypeError` for every other value. -/
def unmarshalObject (decode : String → Except Error Value) (inputJSON : String) :
    Except Error JSONObject :=
  match decode inputJSON with
  | .error err => .error err
  | .ok v =>
    match v with
    | .nil => .ok none
    | .map es again => .ok (some (es, again))
    | .nilMap => .ok none
    | .bool _ => .error "json: cannot unmarshal bool into Go value of type main.JSONObject"
    | .string _ =>
      .error "json: cannot unmarshal string into Go value of type main.JSONObject"
    | .slice _ => .error "json: cannot unmarshal array into Go value of type main.JSONObject"
    | .nilSlice => .error "json: cannot unmarshal array into Go value of type main.JSONObject"
    | .int _ => .error "json: cannot unmarshal number into Go value of type main.JSONObject"
    | .int64 _ =>
      .error "json: cannot unmarshal number into Go value of type main.JSONObject"
    | .float64 _ =>
      .error "json: cannot unmarshal number into Go value of type main.JSONObject"

/-- `GenerateMarkdown` (main.go:13-26): the text and the error returned. -/
def GenerateMarkdown (sprintFloat : Float64 → String)
    (decode : String → Except Error Value) (inputJSON : String) : String × Option Error :=
  match unmarshalObject decode inputJSON with
  | .error err => ("", some ("error parsing JSON: " ++ err))
  | .ok inputData =>
    match generateObjectTable sprintFloat "" inputData "Main Structure" with
    | (_, some err) => ("", some err)
    | (markdown, none) => (markdown, none)

/-- A decoder for the closed examples: it agrees with `encoding/json` on the texts
`null`, `[]`, `1`, `{"a": "x"}`, `{"a": {}}`, `{"a": []}` and on the cut-off text
`{"a":`, the only ones they use. -/
def decodeSample (inputJSON : String) : Except Error Value :=
  if inputJSON = "null" then .ok .nil
  else if inputJSON = "[]" then .ok (.slice [])
  else if inputJSON = "1" then .ok (.float64 float1)
  else if inputJSON = "\x7b\"a\": \"x\"\x7d" then
    .ok (.map [("a", .string "x")] [("a", .string "x")])
  else if inputJSON = "\x7b\"a\": \x7b\x7d\x7d" then
    .ok (.map [("a", .map [] [])] [("a", .map [] [])])
  else if inputJSON = "\x7b\"a\": []\x7d" then
    .ok (.map [("a", .slice [])] [("a", .slice [])])
  else .error "unexpected end of JSON input"

/-- The kind of the last element of an array, in array order, that is a string, a
boolean or a number, if there is one. -/
def lastClassified (v : List Value) : Option Kind :=
  (v.reverse.find? (fun x => x.kind.isClassified)).map Value.kind

mutual
/-- The nesting depth of a value: 0 for a scalar, one more than the deepest field
or element for an Object or an Array. -/
def Value.depth : Value → Nat
  | .map es again => 1 + max (fieldsDepth es) (fieldsDepth again)
  | .nilMap => 1
  | .slice vs => 1 + elemsDepth vs
  | .nilSlice => 1
  | _ => 0
/-- The greatest nesting depth of the values of the fields. -/
def fieldsDepth : List (String × Value) → Nat
  | [] => 0
  | (_, v) :: rest => max v.depth (fieldsDepth rest)
/-- The greatest nesting depth of the elements. -/
def elemsDepth : List Value → Nat
  | [] => 0
  | x :: xs => max x.depth (elemsDepth xs)
end

/-- The nesting depth of a map. -/
def JSONObject.depth : JSONObject → Nat
  | none => 1
  | some m => 1 + max (fieldsDepth m.1) (fieldsDepth m.2)

/-- The call of `generateObjectTable` on the map `d` calls `generateObjectTable` on
the map `d'`: in its second loop, on the map held by a field (main.go:53), or through
`generateArrayTable` on the map selected from the array held by a field
(main.go:60, main.go:86). -/
def Calls (d d' : JSONObject) : Prop :=
  ∃ key value, (key, value) ∈ d.rangeAgain ∧
    (asMap value = some d' ∨
      ∃ a, asSlice value = some a ∧ selectTarget none a = d' ∧ d' ≠ none)

/-- The entries of the object with `n` objects nested one in the other below it,
each the value of the field `a` of the one above. -/
def nestEntries : Nat → List (String × Value)
  | 0 => []
  | n + 1 => [("a", .map (nestEntries n) (nestEntries n))]

/-- The `maxNestingDepth` of `encoding/json` (scanner.go): the scanner fails with
"exceeded max depth" on a text whose arrays and objects nest deeper. -/
def maxNestingDepth : Nat := 10000

/-- The decoding of `encoding/json` with its depth limit made explicit: `parse` reads
the text as a value, and the scanner, which checks the whole text before anything is
stored, rejects it when the value nests deeper than `maxNestingDepth`. -/
def withDepthLimit (parse : String → Except Error Value) (inputJSON : String) :
    Except Error Value :=
  match parse inputJSON with
  | .error err => .error err
  | .ok v => if maxNestingDepth < v.depth then .error "exceeded max depth" else .ok v

/-! ## Required/Optional inference -/

/-- Go's `==` against the float zero holds exactly for the two zeros. -/
theorem Float64.eq_zero_iff (f : Float64) :
    Float64.eq f ⟨false, 0, 0⟩ = true ↔ f.exponent = 0 ∧ f.mantissa = 0 := by
  obtain ⟨s, e, m⟩ := f
  simp only [Float64.eq, Float64.isNaN, Float64.isZero, Float64.mk.injEq]
  constructor
  · intro h
    simp only [Bool.and_eq_true, Bool.or_eq_true, decide_eq_true_eq, beq_iff_eq,
      Bool.not_eq_true'] at h
    rcases h.2 with h1 | h1
    · exact h1.1
    · exact ⟨h1.2.1, h1.2.2⟩
  · rintro ⟨rfl, rfl⟩
    simp

/-- C1 (the code at the failing inputs): for every allocated map and every allocated
slice, the empty ones included, `inferRequired` returns "M", since `reflect.Zero`
of their types is the nil map (nil slice), which `reflect.DeepEqual` tells apart
from an allocated one; the row for "a" in the rendering of `{"a": {}}` and of
`{"a": []}` therefore shows "M". -/
theorem inferRequired_allocated_composite (sprintFloat : Float64 → String) :
    (∀ es again, inferRequired (.map es again) = "M") ∧
    (∀ v, inferRequired (.slice v) = "M") ∧
    inferRequired (.map [] []) = "M" ∧ inferRequired (.slice []) = "M" ∧
    tableRow sprintFloat "a" (.map [] []) =
      "| a        | M        | Object      | Field for 'a'              | Refer to sub-structure           |\n" ∧
    tableRow sprintFloat "a" (.slice []) =
      "| a        | M        | Array      | Field for 'a'              | Refer to list           |\n" := by
  refine ⟨fun es again => ?_, fun v => ?_, ?_, ?_, ?_, ?_⟩
  · simp [inferRequired, Value.isNil, zeroOf, deepEqual]
  · simp [inferRequired, Value.isNil, zeroOf, deepEqual]
  · simp [inferRequired, Value.isNil, zeroOf, deepEqual]
  · simp [inferRequired, Value.isNil, zeroOf, deepEqual]
  · simp [tableRow, getTypeAndExample, inferRequired, Value.isNil, zeroOf, deepEqual]
  · simp [tableRow, getTypeAndExample, inferRequired, Value.isNil, zeroOf, deepEqual,
      arrayDataType]

/-- C2: on every scalar value (Null, String, Number, Boolean) `inferRequired`
returns "O" exactly when the value is Null, the empty string, a numeric zero or
false, and "M" on every other scalar. -/
theorem inferRequired_scalar (value : Value) (hs : value.kind.isScalar = true) :
    (inferRequired value = "O" ↔ value.isEmptyScalar = true) ∧
    (inferRequired value = "M" ↔ value.isEmptyScalar = false) := by
  have hOM : ("O" : String) ≠ "M" := by decide
  have hkey : inferRequired value = if value.isEmptyScalar then "O" else "M" := by
    cases value with
    | nil => rfl
    | bool b => cases b <;> rfl
    | int i =>
      by_cases h : i = 0 <;>
        simp [inferRequired, Value.isNil, zeroOf, deepEqual, Value.isEmptyScalar, h]
    | int64 i =>
      by_cases h : i = 0 <;>
        simp [inferRequired, Value.isNil, zeroOf, deepEqual, Value.isEmptyScalar, h]
    | float64 f =>
      by_cases h : f.exponent = 0 ∧ f.mantissa = 0
      · have h2 := (Float64.eq_zero_iff f).2 h
        simp [inferRequired, Value.isNil, zeroOf, deepEqual, Value.isEmptyScalar, h, h2]
      · have h2 : Float64.eq f ⟨false, 0, 0⟩ = false := by
          cases h3 : Float64.eq f ⟨false, 0, 0⟩ with
          | false => rfl
          | true => exact absurd ((Float64.eq_zero_iff f).1 h3) h
        simp [inferRequired, Value.isNil, zeroOf, deepEqual, Value.isEmptyScalar, h, h2]
    | string s =>
      by_cases h : s = "" <;>
        simp [inferRequired, Value.isNil, zeroOf, deepEqual, Value.isEmptyScalar, h]
    | nilSlice => simp [Value.kind, Kind.isScalar] at hs
    | slice v => simp [Value.kind, Kind.isScalar] at hs
    | nilMap => simp [Value.kind, Kind.isScalar] at hs
    | map es again => simp [Value.kind, Kind.isScalar] at hs
  rw [hkey]
  cases value.isEmptyScalar <;> simp [hOM, hOM.symm]

/-- C2 at the JSON values `0` and `"x"`: the first is Optional, the second
Mandatory. -/
theorem inferRequired_scalar_witness :
    ((inferRequired (.float64 ⟨false, 0, 0⟩) = "O" ↔
        (Value.float64 ⟨false, 0, 0⟩).isEmptyScalar = true) ∧
      (inferRequired (.float64 ⟨false, 0, 0⟩) = "M" ↔
        (Value.float64 ⟨false, 0, 0⟩).isEmptyScalar = false)) ∧
    inferRequired (.float64 ⟨false, 0, 0⟩) = "O" ∧ inferRequired (.string "x") = "M" :=
  ⟨inferRequired_scalar (.float64 ⟨false, 0, 0⟩) (by decide), by decide, by decide⟩

/-! ## Classification -/

/-- An element of a classified kind sets the data type to the name of its kind. -/
theorem arrayElemType_classified (dataType : String) (x : Value)
    (hx : x.kind.isClassified = true) : arrayElemType dataType x = arrayTypeName x.kind := by
  cases x <;> first | rfl | (simp [Value.kind, Kind.isClassified] at hx)

/-- An element of any other kind leaves the data type as it is. -/
theorem arrayElemType_unclassified (dataType : String) (x : Value)
    (hx : x.kind.isClassified = false) : arrayElemType dataType x = dataType := by
  cases x <;> first | rfl | (simp [Value.kind, Kind.isClassified] at hx)

/-- A scan over elements of unclassified kinds leaves the data type as it is. -/
theorem foldl_arrayElemType_unclassified (dataType : String) (v : List Value)
    (hv : ∀ y ∈ v, y.kind.isClassified = false) : v.foldl arrayElemType dataType = dataType := by
  induction v generalizing dataType with
  | nil => rfl
  | cons y ys ih =>
    rw [List.foldl_cons, arrayElemType_unclassified dataType y (hv y (List.mem_cons_self y ys))]
    exact ih dataType (fun z hz => hv z (List.mem_cons_of_mem y hz))

/-- The scan ends with the name of the kind of the last classified element. -/
theorem foldl_arrayElemType_last (dataType : String) (pre post : List Value) (x : Value)
    (hx : x.kind.isClassified = true) (hpost : ∀ y ∈ post, y.kind.isClassified = false) :
    (pre ++ x :: post).foldl arrayElemType dataType = arrayTypeName x.kind := by
  rw [List.foldl_append, List.foldl_cons, arrayElemType_classified _ x hx]
  exact foldl_arrayElemType_unclassified _ post hpost

/-- A scan over elements of one classified kind ends with the name of that kind. -/
theorem foldl_arrayElemType_uniform (dataType : String) (v : List Value) (k : Kind)
    (hne : v ≠ []) (hk : k.isClassified = true) (hv : ∀ y ∈ v, y.kind = k) :
    v.foldl arrayElemType dataType = arrayTypeName k := by
  obtain ⟨pre, x, rfl⟩ : ∃ pre x, v = pre ++ [x] :=
    ⟨v.dropLast, v.getLast hne, (List.dropLast_append_getLast hne).symm⟩
  have hxk : x.kind = k := hv x (by simp)
  rw [← hxk]
  exact foldl_arrayElemType_last dataType pre [] x (by rw [hxk]; exact hk) (by simp)

/-- C3 (counterexample): the array `["a", 1]` contains a string, yet it is
classified "Array Number", not "Array String": the number comes last. -/
theorem getTypeAndExample_mixed_counterexample :
    Value.string "a" ∈ [Value.string "a", Value.float64 float1] ∧
    (getTypeAndExample sprintSample (.slice [.string "a", .float64 float1])).1
      = "Array Number" ∧
    (getTypeAndExample sprintSample (.slice [.string "a", .float64 float1])).1
      ≠ "Array String" := by
  refine ⟨by simp, by decide, by decide⟩

/-- C3 (amended): an array that holds a string, boolean or number `x` followed only
by elements of other kinds (objects, arrays, nulls) is classified by the kind of
`x`, whatever stands before it: "Array String", "Array Boolean" or "Array Number".
An array with a number and a string is "Array String" when the string is the later
of its classified elements. -/
theorem getTypeAndExample_mixed_last (sprintFloat : Float64 → String)
    (pre post : List Value) (x : Value) (hx : x.kind.isClassified = true)
    (hpost : ∀ y ∈ post, y.kind.isClassified = false) :
    (getTypeAndExample sprintFloat (.slice (pre ++ x :: post))).1 = arrayTypeName x.kind := by
  show arrayDataType (pre ++ x :: post) = arrayTypeName x.kind
  exact foldl_arrayElemType_last _ pre post x hx hpost

/-- C3 (amended) at `[1, "a", {}]`: the string is the last classified element and
the array is an "Array String". -/
theorem getTypeAndExample_mixed_last_witness :
    (getTypeAndExample sprintSample
      (.slice ([.float64 float1] ++ .string "a" :: [.map [] []]))).1 = "Array String" :=
  getTypeAndExample_mixed_last sprintSample [.float64 float1] [.map [] []] (.string "a")
    (by decide) (by decide)

/-- C4: every array has example text "Refer to list"; the empty array (allocated or
nil) has data type "Array"; a non-empty array whose elements are all strings, all
numbers, all booleans or all objects has data type "Array String", "Array Number",
"Array Boolean" or "Array Object". -/
theorem getTypeAndExample_uniform_array (sprintFloat : Float64 → String)
    (v : List Value) (k : Kind) (hne : v ≠ [])
    (hk : k = .string ∨ k = .number ∨ k = .boolean ∨ k = .object)
    (hv : ∀ y ∈ v, y.kind = k) :
    getTypeAndExample sprintFloat (.slice v) = (arrayTypeName k, "Refer to list") ∧
    getTypeAndExample sprintFloat (.slice []) = ("Array", "Refer to list") ∧
    getTypeAndExample sprintFloat .nilSlice = ("Array", "Refer to list") ∧
    ∀ w, (getTypeAndExample sprintFloat (.slice w)).2 = "Refer to list" := by
  refine ⟨?_, rfl, rfl, fun w => rfl⟩
  show (arrayDataType v, "Refer to list") = (arrayTypeName k, "Refer to list")
  have hlen : ¬ v.length = 0 := fun h => hne (List.length_eq_zero.1 h)
  have hdt : arrayDataType v = v.foldl arrayElemType "Array Object" := by
    simp only [arrayDataType, if_neg hlen]
  rw [hdt]
  by_cases hc : k.isClassified = true
  · rw [foldl_arrayElemType_uniform _ v k hne hc hv]
  · have hobj : k = .object := by
      rcases hk with h | h | h | h <;> subst h <;> first | rfl | exact absurd rfl hc
    subst hobj
    rw [foldl_arrayElemType_unclassified _ v (fun y hy => by rw [hv y hy]; rfl)]
    rfl

/-- C4 at the array `[{}, {}]` of objects: data type "Array Object". -/
theorem getTypeAndExample_uniform_array_witness :
    getTypeAndExample sprintSample (.slice [.map [] [], .map [] []])
      = (arrayTypeName .object, "Refer to list") ∧
    getTypeAndExample sprintSample (.slice []) = ("Array", "Refer to list") ∧
    getTypeAndExample sprintSample .nilSlice = ("Array", "Refer to list") ∧
    ∀ w, (getTypeAndExample sprintSample (.slice w)).2 = "Refer to list" :=
  getTypeAndExample_uniform_array sprintSample [.map [] [], .map [] []] .object (by simp)
    (Or.inr (Or.inr (Or.inr rfl))) (by decide)

/-- C5: on a value that is not an array `getTypeAndExample` returns ("Boolean",
"true" or "false") for a boolean, ("Object", "Refer to sub-structure") for an object
(empty, non-empty or nil), ("String", s) for a string s, ("String", "<nil>") for
every Null, and data type "Number" for a number of any of the three number types. -/
theorem getTypeAndExample_non_array (sprintFloat : Float64 → String) :
    (∀ b, getTypeAndExample sprintFloat (.bool b)
      = ("Boolean", if b = true then "true" else "false")) ∧
    (∀ es again, getTypeAndExample sprintFloat (.map es again)
      = ("Object", "Refer to sub-structure")) ∧
    getTypeAndExample sprintFloat (.map [] []) = ("Object", "Refer to sub-structure") ∧
    getTypeAndExample sprintFloat .nilMap = ("Object", "Refer to sub-structure") ∧
    (∀ s, getTypeAndExample sprintFloat (.string s) = ("String", s)) ∧
    getTypeAndExample sprintFloat .nil = ("String", "<nil>") ∧
    (∀ f, getTypeAndExample sprintFloat (.float64 f) = ("Number", sprintFloat f)) ∧
    (∀ i, (getTypeAndExample sprintFloat (.int i)).1 = "Number") ∧
    (∀ i, (getTypeAndExample sprintFloat (.int64 i)).1 = "Number") :=
  ⟨fun _ => rfl, fun _ _ => rfl, rfl, rfl, fun _ => rfl, rfl, fun _ => rfl, fun _ => rfl,
    fun _ => rfl⟩

/-! ## Rendering -/

/-- Induction over the calls of the renderer: a property of maps, of entry lists
and of arrays that passes from the values a call recurses into to the call itself
holds everywhere. -/
theorem render_induction (PObj : JSONObject → Prop)
    (PEntries : List (String × Value) → Prop) (PArr : List Value → Prop)
    (hObj : ∀ data, PEntries data.rangeAgain → PObj data)
    (hNil : PEntries [])
    (hCons : ∀ key value rest, (∀ m, asMap value = some m → PObj m) →
      (∀ a, asSlice value = some a → PArr a) → PEntries rest →
      PEntries ((key, value) :: rest))
    (hArr : ∀ data, (∀ m, selectTarget none data = some m → PObj (some m)) → PArr data) :
    (∀ data, PObj data) ∧ (∀ es, PEntries es) ∧ (∀ a, PArr a) := by
  have main : ∀ n : Nat,
      (∀ data : JSONObject, 2 * sizeOf data + 1 ≤ n → PObj data) ∧
      (∀ es : List (String × Value), 2 * sizeOf es ≤ n → PEntries es) ∧
      (∀ a : List Value, 2 * sizeOf a + 2 ≤ n → PArr a) := by
    intro n
    induction n with
    | zero =>
      refine ⟨fun data h => by omega, fun es h => ?_, fun a h => by omega⟩
      cases es with
      | nil => exact hNil
      | cons kv rest => simp only [List.cons.sizeOf_spec] at h; omega
    | succ n ih =>
      obtain ⟨ihObj, ihEntries, ihArr⟩ := ih
      refine ⟨fun data h => ?_, fun es h => ?_, fun a h => ?_⟩
      · apply hObj
        apply ihEntries
        cases data with
        | none =>
          simp only [JSONObject.rangeAgain, Option.none.sizeOf_spec] at h ⊢
          simp
          omega
        | some m =>
          obtain ⟨es, again⟩ := m
          simp only [JSONObject.rangeAgain, Option.some.sizeOf_spec,
            Prod.mk.sizeOf_spec] at h ⊢
          omega
      · cases es with
        | nil => exact hNil
        | cons kv rest =>
          obtain ⟨key, value⟩ := kv
          simp only [List.cons.sizeOf_spec, Prod.mk.sizeOf_spec] at h
          refine hCons key value rest (fun m hm => ?_) (fun a ha => ?_) ?_
          · have := asMap_sizeOf_le hm
            exact ihObj m (by omega)
          · have := asSlice_sizeOf_le ha
            exact ihArr a (by omega)
          · exact ihEntries rest (by omega)
      · apply hArr
        intro m hm
        rcases selectTarget_sizeOf a none with h1 | h1
        · rw [hm] at h1; cases h1
        · rw [hm] at h1
          exact ihObj (some m) (by omega)
  exact ⟨fun data => (main _).1 data (Nat.le_refl _),
    fun es => (main _).2.1 es (Nat.le_refl _),
    fun a => (main _).2.2 a (Nat.le_refl _)⟩

/-- The first loop of `generateObjectTable` appends the rows in order. -/
theorem foldl_tableRow (sprintFloat : Float64 → String) (es : List (String × Value))
    (markdown : String) :
    es.foldl (fun markdown kv => markdown ++ tableRow sprintFloat kv.1 kv.2) markdown
      = markdown ++ concat (es.map (fun kv => tableRow sprintFloat kv.1 kv.2)) := by
  induction es generalizing markdown with
  | nil => simp [concat]
  | cons kv rest ih =>
    rw [List.foldl_cons, ih, List.map_cons, concat, String.append_assoc]

/-- The body of `generateArrayTable` with a plain case distinction. -/
theorem generateArrayTable_eq (sprintFloat : Float64 → String) (markdown : String)
    (data : List Value) (title : String) :
    generateArrayTable sprintFloat markdown data title =
      match selectTarget none data with
      | none => (markdown, none)
      | some targetEntries =>
        generateObjectTable sprintFloat markdown (some targetEntries) title := by
  rw [generateArrayTable]
  split <;> rename_i h <;> rw [h]

/-- What the three renderer functions do to the buffer: each returns no error and
leaves the old content in place; `generateObjectTable` appends the text of the
table, the second loop the renderings of the nested fields in order, and
`generateArrayTable` what it writes to an empty buffer. -/
theorem render_spec (sprintFloat : Float64 → String) :
    (∀ (data : JSONObject) (markdown title : String),
      generateObjectTable sprintFloat markdown data title
        = (markdown ++ tableText sprintFloat data title, none)) ∧
    (∀ (es : List (String × Value)) (markdown : String),
      nestedTables sprintFloat markdown es
        = (markdown ++ concat (es.map (childText sprintFloat)), none)) ∧
    (∀ (a : List Value) (markdown title : String),
      generateArrayTable sprintFloat markdown a title
        = (markdown ++ (generateArrayTable sprintFloat "" a title).1, none)) := by
  apply render_induction
  · intro data hE markdown title
    rw [generateObjectTable, hE, foldl_tableRow]
    simp only [tableText, headingLine]
    by_cases ht : title = ""
    · simp [ht, String.append_assoc]
    · simp [ht, String.append_assoc]
  · intro markdown
    simp [nestedTables, concat]
  · intro key value rest hm ha hrest markdown
    cases value <;> simp only [nestedTables, asMap, asSlice, childText, List.map_cons, concat]
    all_goals try (rw [hrest]; simp)
    · rw [ha _ rfl markdown]
      simp only
      rw [hrest, String.append_assoc]
    · rw [ha _ rfl markdown]
      simp only
      rw [hrest, String.append_assoc]
    · rw [hm _ rfl markdown, hm _ rfl ""]
      simp only
      rw [hrest, String.append_assoc, String.empty_append]
    · rw [hm _ rfl markdown, hm _ rfl ""]
      simp only
      rw [hrest, String.append_assoc, String.empty_append]
  · intro data hObj markdown title
    rw [generateArrayTable_eq, generateArrayTable_eq]
    cases h : selectTarget none data with
    | none => simp
    | some m =>
      simp only
      rw [hObj m h, hObj m h]
      simp


/-- The nested rendering of a field that holds an allocated slice. -/
theorem childText_slice (sprintFloat : Float64 → String) (key : String) (v : List Value) :
    childText sprintFloat (key, .slice v)
      = (generateArrayTable sprintFloat "" v (key ++ " Structure")).1 := rfl

/-- The nested rendering of a field that holds an allocated map. -/
theorem childText_map (sprintFloat : Float64 → String) (key : String)
    (es again : List (String × Value)) :
    childText sprintFloat (key, .map es again)
      = (generateObjectTable sprintFloat "" (some (es, again)) (key ++ " Structure")).1 :=
  rfl

/-- C6 (counterexample): the map `{"a": {}, "b": {}}` whose first loop visits `a`
then `b` and whose second loop visits `b` then `a`: the rows stand in the order `a`,
`b`, the renderings of the nested objects in the order `b`, `a`, which is not the
text with the nested renderings in the order of the rows. -/
theorem generateObjectTable_order_counterexample :
    [("b", Value.map [] []), ("a", Value.map [] [])].Perm
      [("a", Value.map [] []), ("b", Value.map [] [])] ∧
    generateObjectTable sprintSample ""
        (some ([("a", .map [] []), ("b", .map [] [])],
          [("b", .map [] []), ("a", .map [] [])])) "Main Structure"
      = ("### Main Structure\n"
        ++ "| Parameter  | Required | Data Type | Description      | Example         |\n"
        ++ "|------------|----------|-----------|------------------|-----------------|\n"
        ++ "| a        | M        | Object      | Field for 'a'              | Refer to sub-structure           |\n"
        ++ "| b        | M        | Object      | Field for 'b'              | Refer to sub-structure           |\n"
        ++ "### b Structure\n"
        ++ "| Parameter  | Required | Data Type | Description      | Example         |\n"
        ++ "|------------|----------|-----------|------------------|-----------------|\n"
        ++ "\n"
        ++ "### a Structure\n"
        ++ "| Parameter  | Required | Data Type | Description      | Example         |\n"
        ++ "|------------|----------|-----------|------------------|-----------------|\n"
        ++ "\n"
        ++ "\n", none) ∧
    (generateObjectTable sprintSample ""
        (some ([("a", .map [] []), ("b", .map [] [])],
          [("b", .map [] []), ("a", .map [] [])])) "Main Structure").1
      ≠ "" ++ ("### Main Structure\n" ++ headerLabels ++ headerRule
        ++ concat ([("a", Value.map [] []), ("b", Value.map [] [])].map
            (fun kv => tableRow sprintSample kv.1 kv.2))
        ++ concat ([("a", Value.map [] []), ("b", Value.map [] [])].map
            (childText sprintSample))
        ++ "\n") := by
  have hempty : ∀ t, tableText sprintSample (some ([], [])) t
      = headingLine t ++ headerLabels ++ headerRule ++ "\n" := by
    intro t
    simp [tableText, JSONObject.range, JSONObject.rangeAgain, concat]
  have hchild : ∀ key, childText sprintSample (key, .map [] [])
      = headingLine (key ++ " Structure") ++ headerLabels ++ headerRule ++ "\n" := by
    intro key
    rw [childText_map, (render_spec sprintSample).1]
    show "" ++ tableText sprintSample (some ([], [])) (key ++ " Structure") = _
    rw [String.empty_append, hempty]
  have hrow : tableRow sprintSample "a" (.map [] [])
      = "| a        | M        | Object      | Field for 'a'              | Refer to sub-structure           |\n" := by
    decide
  have hrow2 : tableRow sprintSample "b" (.map [] [])
      = "| b        | M        | Object      | Field for 'b'              | Refer to sub-structure           |\n" := by
    decide
  refine ⟨List.Perm.swap _ _ _, ?_, ?_⟩
  · rw [(render_spec sprintSample).1]
    simp only [tableText, JSONObject.range, JSONObject.rangeAgain, List.map, hchild, hrow,
      hrow2, concat]
    simp [headingLine, headerLabels, headerRule]
  · rw [(render_spec sprintSample).1]
    simp only [tableText, JSONObject.range, JSONObject.rangeAgain, List.map, hchild, hrow,
      hrow2, concat]
    simp [headingLine, headerLabels, headerRule]

/-- C6 (amended): for every map (also the nil map), title and buffer content,
`generateObjectTable` returns no error, keeps the content of the buffer and appends
to it, in this order: the heading line `### <title>` when the title is not empty,
the two header lines, one row per field in the order of the first loop (whatever the
kind of its value), the complete renderings of the nested Object and Array fields in
the order of the second loop, and one line feed.  All rows of the table therefore
stand before any text of the tables below it; the nested renderings follow the order
of the rows when the two loops visit the map in the same order. -/
theorem generateObjectTable_appends (sprintFloat : Float64 → String) (markdown : String)
    (data : JSONObject) (title : String) :
    generateObjectTable sprintFloat markdown data title
      = (markdown ++ ((if title ≠ "" then "### " ++ title ++ "\n" else "")
          ++ headerLabels ++ headerRule
          ++ concat (data.range.map (fun kv => tableRow sprintFloat kv.1 kv.2))
          ++ concat (data.rangeAgain.map (childText sprintFloat)) ++ "\n"), none) ∧
    (data.range.map (fun kv => tableRow sprintFloat kv.1 kv.2)).length = data.len ∧
    (∀ es, generateObjectTable sprintFloat markdown (some (es, es)) title
      = (markdown ++ ((if title ≠ "" then "### " ++ title ++ "\n" else "")
          ++ headerLabels ++ headerRule
          ++ concat (es.map (fun kv => tableRow sprintFloat kv.1 kv.2))
          ++ concat (es.map (childText sprintFloat)) ++ "\n"), none)) ∧
    (∀ key es again, childText sprintFloat (key, .map es again)
      = (generateObjectTable sprintFloat "" (some (es, again)) (key ++ " Structure")).1) ∧
    (∀ key v, childText sprintFloat (key, .slice v)
      = (generateArrayTable sprintFloat "" v (key ++ " Structure")).1) ∧
    (∀ key value, value.kind.isScalar = true → childText sprintFloat (key, value) = "") := by
  refine ⟨(render_spec sprintFloat).1 data markdown title, ?_,
    fun es => (render_spec sprintFloat).1 (some (es, es)) markdown title,
    fun _ _ _ => rfl, fun _ _ => rfl, ?_⟩
  · cases data <;> simp [JSONObject.range, JSONObject.len]
  · intro key value hv
    cases value <;> first | rfl | (simp [Value.kind, Kind.isScalar] at hv)

/-- The data type of an array is one of five names. -/
theorem arrayDataType_mem (v : List Value) :
    arrayDataType v ∈
      ["Array", "Array Object", "Array String", "Array Boolean", "Array Number"] := by
  have key : ∀ (w : List Value) (d : String),
      d ∈ ["Array", "Array Object", "Array String", "Array Boolean", "Array Number"] →
      w.foldl arrayElemType d ∈
        ["Array", "Array Object", "Array String", "Array Boolean", "Array Number"] := by
    intro w
    induction w with
    | nil => intro d hd; exact hd
    | cons x xs ih =>
      intro d hd
      rw [List.foldl_cons]
      apply ih
      cases x <;> simp [arrayElemType] <;> simpa using hd
  unfold arrayDataType
  apply key
  by_cases h : v.length = 0 <;> simp [h]

/-- The data type `getTypeAndExample` returns is one of nine names. -/
theorem getTypeAndExample_dataType_mem (sprintFloat : Float64 → String) (value : Value) :
    (getTypeAndExample sprintFloat value).1 ∈
      ["String", "Number", "Boolean", "Object",
        "Array", "Array Object", "Array String", "Array Boolean", "Array Number"] := by
  cases value with
  | nilSlice =>
    have h := arrayDataType_mem []
    simp only [getTypeAndExample]
    simp only [List.mem_cons] at h ⊢
    tauto
  | slice v =>
    have h := arrayDataType_mem v
    simp only [getTypeAndExample]
    simp only [List.mem_cons] at h ⊢
    tauto
  | _ => simp [getTypeAndExample]

/-- `inferRequired` returns "O" or "M". -/
theorem inferRequired_mem (value : Value) : inferRequired value ∈ ["O", "M"] := by
  unfold inferRequired
  split <;> simp


/-- None of the nine data type names holds a bar or a line feed. -/
theorem dataType_chars (sprintFloat : Float64 → String) (value : Value) :
    '|' ∉ (getTypeAndExample sprintFloat value).1.data ∧
    '\n' ∉ (getTypeAndExample sprintFloat value).1.data := by
  have h := getTypeAndExample_dataType_mem sprintFloat value
  simp only [List.mem_cons, List.mem_singleton, List.not_mem_nil, or_false] at h
  rcases h with h | h | h | h | h | h | h | h | h <;> rw [h] <;> decide

/-- Neither "O" nor "M" holds a bar or a line feed. -/
theorem inferRequired_chars (value : Value) :
    '|' ∉ (inferRequired value).data ∧ '\n' ∉ (inferRequired value).data := by
  have h := inferRequired_mem value
  simp only [List.mem_cons, List.mem_singleton, List.not_mem_nil, or_false] at h
  rcases h with h | h <;> rw [h] <;> decide

/-- C7: the row written for a field with key `key` and value `value`, when neither
the key nor the example text holds a bar or a line feed, is one line (its only line
feed is its last character) and, cut at the bars, gives exactly five cells between
the empty text before the first bar and the line feed after the last: the key, the
result of `inferRequired`, the data type, the description `Field for '<key>'` and
the example text, each after one space and before the padding spaces of the
format. -/
theorem tableRow_cells (sprintFloat : Float64 → String) (key : String) (value : Value)
    (hk : '|' ∉ key.data ∧ '\n' ∉ key.data)
    (he : '|' ∉ (getTypeAndExample sprintFloat value).2.data ∧
      '\n' ∉ (getTypeAndExample sprintFloat value).2.data) :
    (tableRow sprintFloat key value).data.splitOn '|' =
      [[],
       (" " ++ key ++ "        ").data,
       (" " ++ inferRequired value ++ "        ").data,
       (" " ++ (getTypeAndExample sprintFloat value).1 ++ "      ").data,
       (" " ++ ("Field for '" ++ key ++ "'") ++ "              ").data,
       (" " ++ (getTypeAndExample sprintFloat value).2 ++ "           ").data,
       ['\n']] ∧
    (∃ body : String, tableRow sprintFloat key value = body ++ "\n" ∧ '\n' ∉ body.data) := by
  obtain ⟨hd1, hd2⟩ := dataType_chars sprintFloat value
  obtain ⟨hr1, hr2⟩ := inferRequired_chars value
  have l1 : ("| " : String).data = ['|', ' '] := rfl
  have l2 : ("        | " : String).data = "        ".data ++ ['|', ' '] := rfl
  have l3 : ("      | " : String).data = "      ".data ++ ['|', ' '] := rfl
  have l4 : ("              | " : String).data = "              ".data ++ ['|', ' '] := rfl
  have l5 : ("           |\n" : String).data = "           ".data ++ ['|', '\n'] := rfl
  have l6 : (" " : String).data = [' '] := rfl
  constructor
  · have hrow : (tableRow sprintFloat key value).data =
        ['|'].intercalate [[],
         (" " ++ key ++ "        ").data,
         (" " ++ inferRequired value ++ "        ").data,
         (" " ++ (getTypeAndExample sprintFloat value).1 ++ "      ").data,
         (" " ++ ("Field for '" ++ key ++ "'") ++ "              ").data,
         (" " ++ (getTypeAndExample sprintFloat value).2 ++ "           ").data,
         ['\n']] := by
      simp only [tableRow, String.data_append, l1, l2, l3, l4, l5, l6, List.intercalate,
        List.intersperse, List.flatten, List.append_assoc, List.cons_append, List.nil_append,
        List.append_nil]
    rw [hrow]
    apply List.splitOn_intercalate
    · intro l hl
      simp only [List.mem_cons, List.mem_singleton, List.not_mem_nil, or_false] at hl
      rcases hl with h | h | h | h | h | h | h <;> subst h <;>
        simp [String.data_append, hk.1, he.1, hd1, hr1]
    · simp
  · refine ⟨"| " ++ key ++ "        | " ++ inferRequired value ++ "        | "
      ++ (getTypeAndExample sprintFloat value).1 ++ "      | "
      ++ ("Field for '" ++ key ++ "'") ++ "              | "
      ++ (getTypeAndExample sprintFloat value).2 ++ "           |", ?_, ?_⟩
    · apply String.ext
      simp only [tableRow, String.data_append, List.append_assoc]
      rfl
    · simp [String.data_append, hk.2, he.2, hd2, hr2]

/-- C7 at `{"a": "x"}`: the only row of the table titled "Main Structure" has the
cells a, M, String, Field for 'a' and x. -/
theorem tableRow_cells_witness :
    ((tableRow sprintSample "a" (.string "x")).data.splitOn '|' =
      [[],
       (" " ++ "a" ++ "        ").data,
       (" " ++ inferRequired (.string "x") ++ "        ").data,
       (" " ++ (getTypeAndExample sprintSample (.string "x")).1 ++ "      ").data,
       (" " ++ ("Field for '" ++ "a" ++ "'") ++ "              ").data,
       (" " ++ (getTypeAndExample sprintSample (.string "x")).2 ++ "           ").data,
       ['\n']] ∧
      (∃ body : String, tableRow sprintSample "a" (.string "x") = body ++ "\n" ∧
        '\n' ∉ body.data)) ∧
    inferRequired (.string "x") = "M" ∧
    getTypeAndExample sprintSample (.string "x") = ("String", "x") ∧
    generateObjectTable sprintSample ""
        (some ([("a", .string "x")], [("a", .string "x")])) "Main Structure" =
      ("### Main Structure\n"
        ++ "| Parameter  | Required | Data Type | Description      | Example         |\n"
        ++ "|------------|----------|-----------|------------------|-----------------|\n"
        ++ "| a        | M        | String      | Field for 'a'              | x           |\n"
        ++ "\n", none) :=
  ⟨tableRow_cells sprintSample "a" (.string "x") (by decide) (by decide), by decide, rfl, by
    rw [(render_spec sprintSample).1]
    simp [tableText, headingLine, concat, childText, asMap, asSlice, JSONObject.range,
      JSONObject.rangeAgain, tableRow, getTypeAndExample, inferRequired, deepEqual, zeroOf,
      Value.isNil, headerLabels, headerRule]⟩


/-! ## Arrays of objects -/

/-- C8 (the code at the failing input): on the array `[{}]`, which holds an Object,
`generateArrayTable` appends nothing, because the loop replaces `targetObject` only
by a map with more entries than the nil map it starts with; the rendering of
`{"a": [{}]}` is the main table alone, with no table titled "a Structure". -/
theorem generateArrayTable_empty_object (sprintFloat : Float64 → String)
    (markdown title : String) :
    asMap (.map [] []) = some (some ([], [])) ∧
    selectTarget none [.map [] []] = none ∧
    generateArrayTable sprintFloat markdown [.map [] []] title = (markdown, none) ∧
    generateObjectTable sprintFloat ""
        (some ([("a", .slice [.map [] []])], [("a", .slice [.map [] []])]))
        "Main Structure" =
      ("### Main Structure\n"
        ++ "| Parameter  | Required | Data Type | Description      | Example         |\n"
        ++ "|------------|----------|-----------|------------------|-----------------|\n"
        ++ "| a        | M        | Array Object      | Field for 'a'              | Refer to list           |\n"
        ++ "\n", none) := by
  have h1 : selectTarget none [.map [] []] = none := rfl
  have h2 : ∀ md t, generateArrayTable sprintFloat md [.map [] []] t = (md, none) := by
    intro md t
    rw [generateArrayTable_eq, h1]
  have hchild : childText sprintFloat ("a", .slice [.map [] []]) = "" := by
    rw [childText_slice, h2]
  have hrow : tableRow sprintFloat "a" (.slice [.map [] []])
      = "| a        | M        | Array Object      | Field for 'a'              | Refer to list           |\n" := by
    simp [tableRow, getTypeAndExample, inferRequired, deepEqual, zeroOf, Value.isNil,
      arrayDataType, arrayElemType]
  refine ⟨rfl, h1, h2 markdown title, ?_⟩
  rw [(render_spec sprintFloat).1]
  simp only [tableText, JSONObject.range, JSONObject.rangeAgain, List.map, hchild, hrow,
    concat]
  simp [headingLine, headerLabels, headerRule]

/-- What the loop of `generateArrayTable` ends with, started from `t`: either `t`,
and then no Object element has more fields than `t`; or the allocated map of an
element that has more fields than `t`, at least as many as every Object element
and more than every Object element before it. -/
theorem selectTarget_spec (data : List Value) (t : JSONObject) :
    (selectTarget t data = t ∧ ∀ x ∈ data, ∀ m, asMap x = some m → m.len ≤ t.len) ∨
    (∃ (i : Nat) (es again : List (String × Value)),
      data[i]? = some (Value.map es again) ∧ selectTarget t data = some (es, again) ∧
      t.len < es.length ∧
      (∀ x ∈ data, ∀ m, asMap x = some m → m.len ≤ es.length) ∧
      (∀ (j : Nat) (x : Value) (m : JSONObject),
        j < i → data[j]? = some x → asMap x = some m → m.len < es.length)) := by
  induction data generalizing t with
  | nil => exact Or.inl ⟨rfl, by simp⟩
  | cons x xs ih =>
    have hstep : selectTarget t (x :: xs) = selectTarget (selectStep t x) xs := rfl
    rw [hstep]
    by_cases hsel : ∃ m, asMap x = some m ∧ t.len < m.len
    · obtain ⟨m, hm, hlt⟩ := hsel
      have hst : selectStep t x = m := by
        simp only [selectStep, hm]
        exact if_pos hlt
      obtain ⟨es0, ag0, rfl, hx⟩ : ∃ es0 ag0, m = some (es0, ag0) ∧ x = .map es0 ag0 := by
        cases x <;> simp only [asMap, Option.some.injEq] at hm <;> cases hm
        · simp [JSONObject.len] at hlt
        · exact ⟨_, _, rfl, rfl⟩
      subst hx
      have hlen0 : JSONObject.len (some (es0, ag0)) = es0.length := rfl
      rw [hst]
      rcases ih (some (es0, ag0)) with ⟨h1, h2⟩ | ⟨i, es, again, hi, h1, h2, h3, h4⟩
      · refine Or.inr ⟨0, es0, ag0, by simp, h1, by rw [← hlen0]; exact hlt, ?_, ?_⟩
        · intro y hy m hm'
          rcases List.mem_cons.1 hy with rfl | hy
          · simp only [asMap, Option.some.injEq] at hm'
            subst hm'
            exact Nat.le_refl _
          · exact h2 y hy m hm'
        · intro j y m hj
          exact absurd hj (Nat.not_lt_zero j)
      · rw [hlen0] at h2
        refine Or.inr ⟨i + 1, es, again, by simpa using hi, h1,
          by rw [hlen0] at hlt; omega, ?_, ?_⟩
        · intro y hy m hm'
          rcases List.mem_cons.1 hy with rfl | hy
          · simp only [asMap, Option.some.injEq] at hm'
            subst hm'
            rw [hlen0]
            omega
          · exact h3 y hy m hm'
        · intro j y m hj hy hm'
          cases j with
          | zero =>
            simp only [List.getElem?_cons_zero, Option.some.injEq] at hy
            subst hy
            simp only [asMap, Option.some.injEq] at hm'
            subst hm'
            rw [hlen0]
            exact h2
          | succ j =>
            simp only [List.getElem?_cons_succ] at hy
            exact h4 j y m (by omega) hy hm'
    · have hle : ∀ m, asMap x = some m → m.len ≤ t.len := by
        intro m hm
        by_contra hc
        exact hsel ⟨m, hm, by omega⟩
      have hst : selectStep t x = t := by
        unfold selectStep
        cases hm : asMap x with
        | none => rfl
        | some m => exact if_neg (by have := hle m hm; omega)
      rw [hst]
      rcases ih t with ⟨h1, h2⟩ | ⟨i, es, again, hi, h1, h2, h3, h4⟩
      · refine Or.inl ⟨h1, ?_⟩
        intro y hy m hm'
        rcases List.mem_cons.1 hy with rfl | hy
        · exact hle m hm'
        · exact h2 y hy m hm'
      · refine Or.inr ⟨i + 1, es, again, by simpa using hi, h1, h2, ?_, ?_⟩
        · intro y hy m hm'
          rcases List.mem_cons.1 hy with rfl | hy
          · have := hle m hm'
            omega
          · exact h3 y hy m hm'
        · intro j y m hj hy hm'
          cases j with
          | zero =>
            simp only [List.getElem?_cons_zero, Option.some.injEq] at hy
            subst hy
            have := hle m hm'
            omega
          | succ j =>
            simp only [List.getElem?_cons_succ] at hy
            exact h4 j y m (by omega) hy hm'

/-- C9: for every array that holds an Object element with at least one field,
`generateArrayTable` does exactly what `generateObjectTable` does, for the same
buffer and title, on one Object element of the array: one with the greatest number
of fields among the Object elements, and the earliest such (every Object element
before it has fewer fields); elements that are not Objects play no part. -/
theorem generateArrayTable_widest (sprintFloat : Float64 → String) (data : List Value)
    (hobj : ∃ x ∈ data, ∃ m, asMap x = some m ∧ 0 < m.len) :
    ∃ (i : Nat) (es again : List (String × Value)),
      data[i]? = some (Value.map es again) ∧ 0 < es.length ∧
      (∀ x ∈ data, ∀ m, asMap x = some m → m.len ≤ es.length) ∧
      (∀ (j : Nat) (x : Value) (m : JSONObject),
        j < i → data[j]? = some x → asMap x = some m → m.len < es.length) ∧
      ∀ markdown title, generateArrayTable sprintFloat markdown data title
        = generateObjectTable sprintFloat markdown (some (es, again)) title := by
  rcases selectTarget_spec data none with ⟨_, h2⟩ | ⟨i, es, again, hi, h1, h2, h3, h4⟩
  · obtain ⟨x, hx, m, hm, hlen⟩ := hobj
    have hle : m.len ≤ 0 := h2 x hx m hm
    omega
  · refine ⟨i, es, again, hi, h2, h3, h4, ?_⟩
    intro markdown title
    rw [generateArrayTable_eq, h1]

/-- The loop of `generateArrayTable` on `[{"x":1},{"x":1,"y":2}]` ends with the
second element. -/
theorem selectTarget_sampleArray :
    selectTarget none sampleArray = some (entriesXY, entriesXY) := rfl

/-- On `[{"x":1},{"x":1,"y":2}]` the array renderer renders the second element. -/
theorem generateArrayTable_sampleArray (markdown title : String) :
    generateArrayTable sprintSample markdown sampleArray title
      = generateObjectTable sprintSample markdown (some (entriesXY, entriesXY)) title := by
  rw [generateArrayTable_eq, selectTarget_sampleArray]

/-- The text of the table of `{"x":1,"y":2}` under the title "list Structure". -/
theorem tableText_entriesXY :
    tableText sprintSample (some (entriesXY, entriesXY)) "list Structure"
      = "### list Structure\n"
        ++ "| Parameter  | Required | Data Type | Description      | Example         |\n"
        ++ "|------------|----------|-----------|------------------|-----------------|\n"
        ++ "| x        | M        | Number      | Field for 'x'              | 1           |\n"
        ++ "| y        | M        | Number      | Field for 'y'              | 2           |\n"
        ++ "\n" := by
  simp [tableText, headingLine, concat, childText, asMap, asSlice, JSONObject.range,
    JSONObject.rangeAgain, entriesXY, tableRow, getTypeAndExample, inferRequired, deepEqual,
    zeroOf, Value.isNil, headerLabels, headerRule, sprintSample, float1, float2, Float64.eq,
    Float64.isNaN, Float64.isZero]

/-- The rendering of `{"list":[{"x":1},{"x":1,"y":2}]}`. -/
theorem generateObjectTable_entriesList :
    generateObjectTable sprintSample "" (some (entriesList, entriesList)) "Main Structure"
      = ("### Main Structure\n"
        ++ "| Parameter  | Required | Data Type | Description      | Example         |\n"
        ++ "|------------|----------|-----------|------------------|-----------------|\n"
        ++ "| list        | M        | Array Object      | Field for 'list'              | Refer to list           |\n"
        ++ "### list Structure\n"
        ++ "| Parameter  | Required | Data Type | Description      | Example         |\n"
        ++ "|------------|----------|-----------|------------------|-----------------|\n"
        ++ "| x        | M        | Number      | Field for 'x'              | 1           |\n"
        ++ "| y        | M        | Number      | Field for 'y'              | 2           |\n"
        ++ "\n\n", none) := by
  have ht : "list" ++ " Structure" = "list Structure" := by decide
  have hchild : childText sprintSample ("list", .slice sampleArray)
      = "### list Structure\n"
        ++ "| Parameter  | Required | Data Type | Description      | Example         |\n"
        ++ "|------------|----------|-----------|------------------|-----------------|\n"
        ++ "| x        | M        | Number      | Field for 'x'              | 1           |\n"
        ++ "| y        | M        | Number      | Field for 'y'              | 2           |\n"
        ++ "\n" := by
    rw [childText_slice, generateArrayTable_sampleArray, (render_spec sprintSample).1, ht,
      ← tableText_entriesXY]
    exact String.empty_append _
  have hrow : tableRow sprintSample "list" (.slice sampleArray)
      = "| list        | M        | Array Object      | Field for 'list'              | Refer to list           |\n" := by
    decide
  rw [(render_spec sprintSample).1]
  simp only [tableText, JSONObject.range, JSONObject.rangeAgain, entriesList, List.map,
    hchild, hrow, concat]
  simp [headingLine, headerLabels, headerRule]

/-- C9 at `{"list":[{"x":1},{"x":1,"y":2}]}`: the table "list Structure" is rendered
from the second element, and has the rows of `x` and `y`. -/
theorem generateArrayTable_widest_witness :
    (∃ (i : Nat) (es again : List (String × Value)),
      sampleArray[i]? = some (Value.map es again) ∧ 0 < es.length ∧
      (∀ x ∈ sampleArray, ∀ m, asMap x = some m → m.len ≤ es.length) ∧
      (∀ (j : Nat) (x : Value) (m : JSONObject),
        j < i → sampleArray[j]? = some x → asMap x = some m → m.len < es.length) ∧
      ∀ markdown title, generateArrayTable sprintSample markdown sampleArray title
        = generateObjectTable sprintSample markdown (some (es, again)) title) ∧
    generateArrayTable sprintSample "" sampleArray "list Structure"
      = generateObjectTable sprintSample "" (some (entriesXY, entriesXY)) "list Structure" ∧
    generateObjectTable sprintSample "" (some (entriesList, entriesList)) "Main Structure"
      = ("### Main Structure\n"
        ++ "| Parameter  | Required | Data Type | Description      | Example         |\n"
        ++ "|------------|----------|-----------|------------------|-----------------|\n"
        ++ "| list        | M        | Array Object      | Field for 'list'              | Refer to list           |\n"
        ++ "### list Structure\n"
        ++ "| Parameter  | Required | Data Type | Description      | Example         |\n"
        ++ "|------------|----------|-----------|------------------|-----------------|\n"
        ++ "| x        | M        | Number      | Field for 'x'              | 1           |\n"
        ++ "| y        | M        | Number      | Field for 'y'              | 2           |\n"
        ++ "\n\n", none) :=
  ⟨generateArrayTable_widest sprintSample sampleArray
    ⟨Value.map entriesX entriesX, by simp [sampleArray], some (entriesX, entriesX), rfl,
      by decide⟩,
    generateArrayTable_sampleArray _ _, generateObjectTable_entriesList⟩

/-! ## Counting tables -/

/-- The text of a line followed by further lines. -/
theorem linesText_cons (l : List Char) (L : List (List Char)) :
    linesText (l :: L) = l ++ '\n' :: linesText L := by
  simp [linesText]

/-- The text of two runs of lines is the text of the first followed by the text of the second. -/
theorem linesText_append (L M : List (List Char)) :
    linesText (L ++ M) = linesText L ++ linesText M := by
  simp [linesText]

/-- The text of lines is these lines and a last empty one, joined by line feeds. -/
theorem linesText_eq_intercalate (L : List (List Char)) :
    linesText L = ['\n'].intercalate (L ++ [[]]) := by
  induction L with
  | nil => rfl
  | cons l L ih =>
    rw [linesText_cons, ih]
    cases L with
    | nil => simp [List.intercalate, List.intersperse]
    | cons m M => simp [List.intercalate, List.intersperse]

/-- Cutting the text of lines without line feeds at the line feeds gives the lines back, and an empty text after the last. -/
theorem splitOn_linesText (L : List (List Char)) (hL : ∀ l ∈ L, '\n' ∉ l) :
    (linesText L).splitOn '\n' = L ++ [[]] := by
  rw [linesText_eq_intercalate]
  apply List.splitOn_intercalate
  · intro l hl
    rcases List.mem_append.1 hl with h | h
    · exact hL l h
    · simp at h; subst h; simp
  · simp

/-- A text made of complete lines, `n` of them header rules, has table count `n`. -/
theorem HasTables.tableCount_eq {text : String} {n : Nat} (h : HasTables text n) :
    tableCount text = n := by
  obtain ⟨L, hL, hlf, hc⟩ := h
  unfold tableCount
  rw [hL, splitOn_linesText L hlf, List.count_append, hc]
  have : List.count headerRuleLine [[]] = 0 := by decide
  rw [this]
  rfl

/-- The empty text has no table. -/
theorem HasTables.empty : HasTables "" 0 :=
  ⟨[], rfl, by simp, rfl⟩

/-- Texts of complete lines put one after the other: the numbers of tables add up. -/
theorem HasTables.append {a b : String} {n m : Nat} (ha : HasTables a n)
    (hb : HasTables b m) : HasTables (a ++ b) (n + m) := by
  obtain ⟨L, hL, hlf, hc⟩ := ha
  obtain ⟨M, hM, hmf, hd⟩ := hb
  refine ⟨L ++ M, ?_, ?_, ?_⟩
  · rw [String.data_append, hL, hM, linesText_append]
  · intro l hl
    rcases List.mem_append.1 hl with h | h
    · exact hlf l h
    · exact hmf l h
  · rw [List.count_append, hc, hd]

/-- One line that is not the header rule, with its line feed, has no table. -/
theorem HasTables.line (l : String) (hlf : '\n' ∉ l.data) (hne : l.data ≠ headerRuleLine) :
    HasTables (l ++ "\n") 0 := by
  refine ⟨[l.data], ?_, ?_, ?_⟩
  · rw [String.data_append]
    simp [linesText]
  · intro m hm
    simp at hm
    subst hm
    exact hlf
  · rw [List.count_cons, List.count_nil]
    simp [hne]

/-- The header rule is one table. -/
theorem HasTables.rule : HasTables headerRule 1 :=
  ⟨[headerRuleLine], by decide, by decide, by decide⟩

/-- Texts without tables, one after the other, have no table. -/
theorem HasTables.concat_zero {α : Type} (f : α → String) (xs : List α)
    (h : ∀ x ∈ xs, HasTables (f x) 0) : HasTables (concat (xs.map f)) 0 := by
  induction xs with
  | nil => exact HasTables.empty
  | cons x xs ih =>
    have h1 := h x (List.mem_cons_self x xs)
    have h2 := ih (fun y hy => h y (List.mem_cons_of_mem x hy))
    simpa [concat] using HasTables.append h1 h2

/-- The heading line of a title without line feed has no table. -/
theorem headingLine_hasTables (title : String) (ht : '\n' ∉ title.data) :
    HasTables (headingLine title) 0 := by
  unfold headingLine
  by_cases h : title = ""
  · simp only [h, ne_eq, not_true_eq_false, if_false]
    exact HasTables.empty
  · simp only [ne_eq, h, not_false_eq_true, if_true]
    apply HasTables.line
    · rw [String.data_append]
      intro hmem
      rcases List.mem_append.1 hmem with h1 | h1
      · revert h1; decide
      · exact ht h1
    · rw [String.data_append]
      have h1 : ("### " : String).data = ['#', '#', '#', ' '] := rfl
      have h2 : headerRuleLine = '|' :: headerRuleLine.tail := by decide
      rw [h1, h2]
      simp

/-- The line of column labels has no table. -/
theorem headerLabels_hasTables : HasTables headerLabels 0 :=
  ⟨["| Parameter  | Required | Data Type | Description      | Example         |".data],
    by decide, by decide, by decide⟩

/-- A row whose key and example text have no line feed is one line and not the header rule. -/
theorem tableRow_hasTables (sprintFloat : Float64 → String) (key : String) (value : Value)
    (hk : '\n' ∉ key.data) (he : '\n' ∉ (getTypeAndExample sprintFloat value).2.data) :
    HasTables (tableRow sprintFloat key value) 0 := by
  have hbody : tableRow sprintFloat key value =
      ("| " ++ key ++ "        | " ++ inferRequired value ++ "        | "
      ++ (getTypeAndExample sprintFloat value).1 ++ "      | "
      ++ ("Field for '" ++ key ++ "'") ++ "              | "
      ++ (getTypeAndExample sprintFloat value).2 ++ "           |") ++ "\n" := by
    apply String.ext
    simp only [tableRow, String.data_append, List.append_assoc]
    rfl
  rw [hbody]
  apply HasTables.line
  · simp [String.data_append, hk, he, (dataType_chars sprintFloat value).2,
      (inferRequired_chars value).2]
  · have h1 : ("| " : String).data = ['|', ' '] := rfl
    have h2 : headerRuleLine = '|' :: '-' :: headerRuleLine.tail.tail := by decide
    simp only [String.data_append, List.append_assoc, h1]
    rw [h2]
    simp

/-- What line safety of a list of fields says about its first field. -/
theorem fieldsLineSafe_cons (sprintFloat : Float64 → String) (key : String) (value : Value)
    (rest : List (String × Value)) :
    fieldsLineSafe sprintFloat ((key, value) :: rest) = true ↔
      '\n' ∉ key.data ∧ '\n' ∉ (getTypeAndExample sprintFloat value).2.data ∧
      value.lineSafe sprintFloat = true ∧ fieldsLineSafe sprintFloat rest = true := by
  simp [fieldsLineSafe, noLineFeed, and_assoc]

/-- The rows of a line-safe object have no table. -/
theorem rows_hasTables (sprintFloat : Float64 → String) (es : List (String × Value))
    (hs : fieldsLineSafe sprintFloat es = true) :
    HasTables (concat (es.map (fun kv => tableRow sprintFloat kv.1 kv.2))) 0 := by
  induction es with
  | nil => exact HasTables.empty
  | cons kv rest ih =>
    obtain ⟨key, value⟩ := kv
    obtain ⟨hk, he, _, hrest⟩ := (fieldsLineSafe_cons sprintFloat key value rest).1 hs
    simpa [concat] using
      HasTables.append (tableRow_hasTables sprintFloat key value hk he) (ih hrest)

/-- Choosing the widest element on the pairs follows the loop of `generateArrayTable` step by step. -/
theorem foldl_widestStep (a : List Value) (t : JSONObject) :
    (elemsTables a).foldl widestStep (t.len, targetTables t)
      = ((selectTarget t a).len, targetTables (selectTarget t a)) := by
  induction a generalizing t with
  | nil => rfl
  | cons x xs ih =>
    have hstep : selectTarget t (x :: xs) = selectTarget (selectStep t x) xs := rfl
    rw [hstep]
    cases x with
    | map es again =>
      have h1 : elemsTables (Value.map es again :: xs)
          = (es.length, 1 + fieldsTables again) :: elemsTables xs := by
        simp [elemsTables]
      rw [h1, List.foldl_cons]
      by_cases hlt : es.length > t.len
      · have h2 : selectStep t (Value.map es again) = some (es, again) := by
          simp only [selectStep, asMap]
          exact if_pos hlt
        have h3 : widestStep (t.len, targetTables t) (es.length, 1 + fieldsTables again)
            = (JSONObject.len (some (es, again)), targetTables (some (es, again))) := by
          simp only [widestStep]
          exact if_pos hlt
        rw [h2, h3]
        exact ih (some (es, again))
      · have h2 : selectStep t (Value.map es again) = t := by
          simp only [selectStep, asMap]
          exact if_neg hlt
        have h3 : widestStep (t.len, targetTables t) (es.length, 1 + fieldsTables again)
            = (t.len, targetTables t) := by
          simp only [widestStep]
          exact if_neg hlt
        rw [h2, h3]
        exact ih t
    | nilMap =>
      have h1 : elemsTables (Value.nilMap :: xs) = (0, 1) :: elemsTables xs := by
        simp [elemsTables]
      have h2 : selectStep t Value.nilMap = t := by
        simp only [selectStep, asMap]
        exact if_neg (Nat.not_lt_zero _)
      have h3 : widestStep (t.len, targetTables t) (0, 1) = (t.len, targetTables t) := by
        simp only [widestStep]
        exact if_neg (Nat.not_lt_zero _)
      rw [h1, List.foldl_cons, h2, h3]
      exact ih t
    | _ =>
      simp only [elemsTables, selectStep, asMap]
      exact ih t

/-- The tables of the widest Object element are those reached from the map `generateArrayTable` selects. -/
theorem widestTables_eq (a : List Value) :
    widestTables (elemsTables a) = targetTables (selectTarget none a) := by
  have h := foldl_widestStep a none
  unfold widestTables
  have h0 : ((0 : Nat), (0 : Nat)) = (JSONObject.len none, targetTables none) := rfl
  rw [h0, h]

/-- The closing line feed of a table is an empty line. -/
theorem HasTables.newline : HasTables "\n" 0 :=
  ⟨[[]], by decide, by decide, by decide⟩

/-- Every element of a line-safe array is line safe. -/
theorem elemsLineSafe_mem (sprintFloat : Float64 → String) (a : List Value) (x : Value)
    (hs : elemsLineSafe sprintFloat a = true) (hx : x ∈ a) :
    x.lineSafe sprintFloat = true := by
  induction a with
  | nil => cases hx
  | cons y ys ih =>
    simp only [elemsLineSafe, Bool.and_eq_true] at hs
    rcases List.mem_cons.1 hx with rfl | h
    · exact hs.1
    · exact ih hs.2 h

/-- The title `<key> Structure` has no line feed when the key has none. -/
theorem structureTitle_noLineFeed (key : String) (hk : '\n' ∉ key.data) :
    '\n' ∉ (key ++ " Structure").data := by
  rw [String.data_append]
  intro hmem
  rcases List.mem_append.1 hmem with h | h
  · exact hk h
  · revert h; decide

/-- The rendering of a line-safe object under a title without line feed is made of
complete lines, and the header rule is the line of as many of them as there are
tables reached from the object; likewise for the nested renderings of its fields and
for the rendering of an array. -/
theorem render_hasTables (sprintFloat : Float64 → String) :
    (∀ data : JSONObject, fieldsLineSafe sprintFloat data.range = true →
      fieldsLineSafe sprintFloat data.rangeAgain = true →
      ∀ title : String, '\n' ∉ title.data →
      HasTables (tableText sprintFloat data title) (1 + fieldsTables data.rangeAgain)) ∧
    (∀ es : List (String × Value), fieldsLineSafe sprintFloat es = true →
      HasTables (concat (es.map (childText sprintFloat))) (fieldsTables es)) ∧
    (∀ a : List Value, elemsLineSafe sprintFloat a = true →
      ∀ title : String, '\n' ∉ title.data →
      HasTables (generateArrayTable sprintFloat "" a title).1
        (widestTables (elemsTables a))) := by
  apply render_induction
  · intro data hE hs hs2 title ht
    have h := ((((headingLine_hasTables title ht).append headerLabels_hasTables).append
      HasTables.rule).append (rows_hasTables sprintFloat data.range hs)).append (hE hs2)
    have h2 := h.append HasTables.newline
    have hn : 0 + 0 + 1 + 0 + fieldsTables data.rangeAgain + 0
        = 1 + fieldsTables data.rangeAgain := by
      omega
    rw [hn] at h2
    exact h2
  · intro _
    exact HasTables.empty
  · intro key value rest hm ha hrest hs
    obtain ⟨hk, he, hv, hr⟩ := (fieldsLineSafe_cons sprintFloat key value rest).1 hs
    have htitle := structureTitle_noLineFeed key hk
    have hchild : HasTables (childText sprintFloat (key, value)) value.tables := by
      cases value with
      | map es again =>
        rw [childText_map, (render_spec sprintFloat).1]
        show HasTables ("" ++ tableText sprintFloat (some (es, again)) (key ++ " Structure")) _
        rw [String.empty_append]
        simp only [Value.lineSafe, Bool.and_eq_true] at hv
        exact hm (some (es, again)) rfl hv.1 hv.2 _ htitle
      | nilMap =>
        show HasTables (generateObjectTable sprintFloat "" none (key ++ " Structure")).1 _
        rw [(render_spec sprintFloat).1]
        show HasTables ("" ++ tableText sprintFloat none (key ++ " Structure")) _
        rw [String.empty_append]
        exact hm none rfl rfl rfl _ htitle
      | slice vs =>
        rw [childText_slice]
        exact ha vs rfl (by simpa [Value.lineSafe] using hv) _ htitle
      | nilSlice =>
        show HasTables (generateArrayTable sprintFloat "" [] (key ++ " Structure")).1 _
        exact ha [] rfl rfl _ htitle
      | _ => exact HasTables.empty
    have h := hchild.append (hrest hr)
    simpa [concat, fieldsTables] using h
  · intro a hObj hs title ht
    rw [generateArrayTable_eq, widestTables_eq]
    cases h : selectTarget none a with
    | none => exact HasTables.empty
    | some m =>
      obtain ⟨es, again⟩ := m
      show HasTables (generateObjectTable sprintFloat "" (some (es, again)) title).1 _
      rw [(render_spec sprintFloat).1]
      show HasTables ("" ++ tableText sprintFloat (some (es, again)) title) _
      rw [String.empty_append]
      have hmem : Value.map es again ∈ a := by
        rcases selectTarget_spec a none with ⟨h1, _⟩ | ⟨i, es1, ag1, hi, h1, _⟩
        · rw [h] at h1; cases h1
        · rw [h] at h1
          cases h1
          exact List.getElem?_mem hi
      have hsafe := elemsLineSafe_mem sprintFloat a _ hs hmem
      simp only [Value.lineSafe, Bool.and_eq_true] at hsafe
      exact hObj (es, again) h hsafe.1 hsafe.2 title ht

/-- The Object values in the tree of an element are among those of the array. -/
theorem objectCount_le_elems (a : List Value) (x : Value) (hx : x ∈ a) :
    x.objectCount ≤ elemsObjectCount a := by
  induction a with
  | nil => cases hx
  | cons y ys ih =>
    simp only [elemsObjectCount]
    rcases List.mem_cons.1 hx with rfl | h
    · omega
    · have := ih h
      omega

/-- The Object values below the fields of a map do not depend on the order of the
fields. -/
theorem fieldsObjectCount_perm {l₁ l₂ : List (String × Value)} (h : l₁.Perm l₂) :
    fieldsObjectCount l₁ = fieldsObjectCount l₂ := by
  induction h with
  | nil => rfl
  | cons x _ ih =>
    obtain ⟨k, v⟩ := x
    simp only [fieldsObjectCount, ih]
  | swap x y l =>
    obtain ⟨k, v⟩ := x
    obtain ⟨k2, v2⟩ := y
    simp only [fieldsObjectCount]
    omega
  | trans _ _ ih1 ih2 => rw [ih1, ih2]

/-- Every element of a well-formed array is well formed. -/
theorem elemsWellFormed_mem (a : List Value) (x : Value) (hs : elemsWellFormed a)
    (hx : x ∈ a) : x.wellFormed := by
  induction a with
  | nil => cases hx
  | cons y ys ih =>
    simp only [elemsWellFormed] at hs
    rcases List.mem_cons.1 hx with rfl | h
    · exact hs.1
    · exact ih hs.2 h

/-- The tables reached from a well-formed value are at most as many as the Object
values in its tree: every table is rendered from an Object of its own. -/
theorem tables_le_objectCount :
    (∀ data : JSONObject, fieldsWellFormed data.rangeAgain →
      fieldsTables data.rangeAgain ≤ fieldsObjectCount data.rangeAgain) ∧
    (∀ es : List (String × Value), fieldsWellFormed es →
      fieldsTables es ≤ fieldsObjectCount es) ∧
    (∀ a : List Value, elemsWellFormed a →
      widestTables (elemsTables a) ≤ elemsObjectCount a) := by
  apply render_induction
  · intro data hE
    exact hE
  · intro _
    exact Nat.le_refl _
  · intro key value rest hm ha hrest hwf
    simp only [fieldsWellFormed] at hwf
    have hv : value.tables ≤ value.objectCount := by
      cases value with
      | map es again =>
        simp only [Value.wellFormed] at hwf
        have h1 := hm (some (es, again)) rfl hwf.1.2.2
        simp only [JSONObject.rangeAgain] at h1
        have h2 := fieldsObjectCount_perm hwf.1.1
        simp only [Value.tables, Value.objectCount]
        omega
      | slice vs =>
        simp only [Value.wellFormed] at hwf
        exact ha vs rfl hwf.1
      | _ => simp [Value.tables, Value.objectCount, widestTables, elemsTables]
    have h3 := hrest hwf.2
    simp only [fieldsTables, fieldsObjectCount]
    omega
  · intro a hObj hwf
    rw [widestTables_eq]
    cases h : selectTarget none a with
    | none => exact Nat.zero_le _
    | some m =>
      obtain ⟨es, again⟩ := m
      have hmem : Value.map es again ∈ a := by
        rcases selectTarget_spec a none with ⟨h1, _⟩ | ⟨i, es1, ag1, hi, h1, _⟩
        · rw [h] at h1; cases h1
        · rw [h] at h1
          cases h1
          exact List.getElem?_mem hi
      have hw := elemsWellFormed_mem a _ hwf hmem
      simp only [Value.wellFormed] at hw
      have h1 := objectCount_le_elems a _ hmem
      have h2 := hObj (es, again) h hw.2.2
      have h3 := fieldsObjectCount_perm hw.1
      simp only [JSONObject.rangeAgain] at h2
      simp only [Value.objectCount] at h1
      simp only [targetTables]
      omega

/-- The table count of the rendering of a line-safe object. -/
theorem tableCount_render (sprintFloat : Float64 → String)
    (es again : List (String × Value)) (title : String)
    (hsafe : (Value.map es again).lineSafe sprintFloat = true)
    (ht : '\n' ∉ title.data) :
    tableCount (generateObjectTable sprintFloat "" (some (es, again)) title).1
      = (Value.map es again).tables := by
  rw [(render_spec sprintFloat).1]
  show tableCount ("" ++ tableText sprintFloat (some (es, again)) title) = _
  rw [String.empty_append]
  simp only [Value.lineSafe, Bool.and_eq_true] at hsafe
  exact ((render_hasTables sprintFloat).1 (some (es, again)) hsafe.1 hsafe.2 title
    ht).tableCount_eq

/-- The tree of `{"list":[{"x":1},{"x":1,"y":2}]}` is well formed. -/
theorem wellFormed_entriesList : (Value.map entriesList entriesList).wellFormed := by
  simp [Value.wellFormed, fieldsWellFormed, elemsWellFormed, entriesList, sampleArray,
    entriesX, entriesXY]

/-- C10 (counterexample): the rendering of `{"list":[{"x":1},{"x":1,"y":2}]}` has 2
tables, while the tree has 3 Object values and 1 Array with an Object element: the
first element of the array produces no table, and the table of the second is the
one that stands for the array. -/
theorem tableCount_counterexample :
    tableCount (generateObjectTable sprintSample "" (some (entriesList, entriesList))
        "Main Structure").1 = 2 ∧
    (Value.map entriesList entriesList).objectCount = 3 ∧
    (Value.map entriesList entriesList).objectArrayCount = 1 ∧
    tableCount (generateObjectTable sprintSample "" (some (entriesList, entriesList))
        "Main Structure").1
      ≠ (Value.map entriesList entriesList).objectCount
        + (Value.map entriesList entriesList).objectArrayCount ∧
    tableCount (generateObjectTable sprintSample "" (some (entriesList, entriesList))
        "Main Structure").1
      ≠ (Value.map entriesList entriesList).objectCount := by
  have h := tableCount_render sprintSample entriesList entriesList
        "Main Structure" (by decide) (by decide)
  have h2 : (Value.map entriesList entriesList).tables = 2 := by decide
  rw [h2] at h
  refine ⟨h, by decide, by decide, ?_, ?_⟩
  · rw [h]; decide
  · rw [h]; decide

/-- C10 (amended): for every well-formed object whose keys and example texts hold no
line feed, rendered under a title without line feed, the number of tables in the
text (of its header rule lines) equals the number of Objects the rendering reaches:
the object itself, every Object that is the value of a field of a reached Object,
and, for every Array that is the value of a field of a reached Object and holds an
Object element with at least one field, its widest such element, the earliest among
equals.  This number is at most the number of Object values in the tree. -/
theorem tableCount_reached (sprintFloat : Float64 → String)
    (es again : List (String × Value)) (title : String)
    (hwf : (Value.map es again).wellFormed)
    (hsafe : (Value.map es again).lineSafe sprintFloat = true)
    (ht : '\n' ∉ title.data) :
    tableCount (generateObjectTable sprintFloat "" (some (es, again)) title).1
      = (Value.map es again).tables ∧
    (Value.map es again).tables = 1 + fieldsTables again ∧
    (∀ key fs ag rest, fieldsTables ((key, Value.map fs ag) :: rest)
      = (1 + fieldsTables ag) + fieldsTables rest) ∧
    (∀ key vs rest, fieldsTables ((key, Value.slice vs) :: rest)
      = widestTables (elemsTables vs) + fieldsTables rest) ∧
    (∀ key value rest, value.kind.isScalar = true →
      fieldsTables ((key, value) :: rest) = fieldsTables rest) ∧
    (Value.map es again).tables ≤ (Value.map es again).objectCount := by
  refine ⟨tableCount_render sprintFloat es again title hsafe ht, by simp [Value.tables],
    fun _ _ _ _ => by simp [fieldsTables, Value.tables],
    fun _ _ _ => by simp [fieldsTables, Value.tables], ?_, ?_⟩
  · intro key value rest hv
    cases value <;> first
      | (simp [fieldsTables, Value.tables]; done)
      | (simp [Value.kind, Kind.isScalar] at hv)
  · simp only [Value.wellFormed] at hwf
    have h1 := tables_le_objectCount.2.1 again hwf.2.2
    have h2 := fieldsObjectCount_perm hwf.1
    simp only [Value.tables, Value.objectCount]
    omega

/-- C10 (amended) at `{"list":[{"x":1},{"x":1,"y":2}]}`: two tables, the main one
and the one of the second element of the array. -/
theorem tableCount_reached_witness :
    tableCount (generateObjectTable sprintSample "" (some (entriesList, entriesList))
        "Main Structure").1
      = (Value.map entriesList entriesList).tables ∧
    (Value.map entriesList entriesList).tables = 2 :=
  ⟨(tableCount_reached sprintSample entriesList entriesList "Main Structure"
      wellFormed_entriesList (by decide) (by decide)).1, by decide⟩

/-- An array without Object element leaves the loop of `generateArrayTable` with the
nil map. -/
theorem selectTarget_no_object (v : List Value) (hv : ∀ x ∈ v, x.kind ≠ Kind.object) :
    selectTarget none v = none := by
  rcases selectTarget_spec v none with ⟨h1, _⟩ | ⟨i, es, again, hi, _⟩
  · exact h1
  · exact absurd rfl (hv _ (List.getElem?_mem hi))

/-- C11: for every field whose value is an array without Object element (empty,
scalars only, nested arrays only), `generateArrayTable` appends nothing, so that the
nested rendering of the field is empty and the field contributes its row only: the
rendering of an object that has this one field is the heading, the header, the row
and the closing line feed. -/
theorem childText_array_without_object (sprintFloat : Float64 → String) (key : String)
    (v : List Value) (hv : ∀ x ∈ v, x.kind ≠ Kind.object) :
    (∀ markdown title, generateArrayTable sprintFloat markdown v title = (markdown, none)) ∧
    childText sprintFloat (key, .slice v) = "" ∧
    childText sprintFloat (key, .slice []) = "" ∧
    childText sprintFloat (key, .nilSlice) = "" ∧
    (∀ markdown title, generateObjectTable sprintFloat markdown
        (some ([(key, .slice v)], [(key, .slice v)])) title
      = (markdown ++ (headingLine title ++ headerLabels ++ headerRule
          ++ tableRow sprintFloat key (.slice v) ++ "\n"), none)) := by
  have hsel := selectTarget_no_object v hv
  have h1 : ∀ markdown title,
      generateArrayTable sprintFloat markdown v title = (markdown, none) := by
    intro markdown title
    rw [generateArrayTable_eq, hsel]
  have h0 : ∀ markdown title,
      generateArrayTable sprintFloat markdown [] title = (markdown, none) := by
    intro markdown title
    rw [generateArrayTable_eq]
    rfl
  have hc : childText sprintFloat (key, .slice v) = "" := by
    rw [childText_slice, h1]
  refine ⟨h1, hc, ?_, ?_, ?_⟩
  · rw [childText_slice, h0]
  · show (generateArrayTable sprintFloat "" [] (key ++ " Structure")).1 = ""
    rw [h0]
  · intro markdown title
    rw [(render_spec sprintFloat).1]
    simp only [tableText, JSONObject.range, JSONObject.rangeAgain, List.map, hc, concat,
      String.append_empty]

/-- C11 at `{"a": []}`: one table, "Main Structure", with the row of `a` (data type
"Array", example "Refer to list") and no heading "a Structure". -/
theorem childText_array_without_object_witness :
    ((∀ markdown title, generateArrayTable sprintSample markdown [] title
        = (markdown, none)) ∧
      childText sprintSample ("a", .slice []) = "" ∧
      childText sprintSample ("a", .slice []) = "" ∧
      childText sprintSample ("a", .nilSlice) = "" ∧
      (∀ markdown title, generateObjectTable sprintSample markdown
          (some ([("a", .slice [])], [("a", .slice [])])) title
        = (markdown ++ (headingLine title ++ headerLabels ++ headerRule
            ++ tableRow sprintSample "a" (.slice []) ++ "\n"), none))) ∧
    GenerateMarkdown sprintSample decodeSample "\x7b\"a\": []\x7d"
      = ("### Main Structure\n"
        ++ "| Parameter  | Required | Data Type | Description      | Example         |\n"
        ++ "|------------|----------|-----------|------------------|-----------------|\n"
        ++ "| a        | M        | Array      | Field for 'a'              | Refer to list           |\n"
        ++ "\n", none) ∧
    tableCount (GenerateMarkdown sprintSample decodeSample "\x7b\"a\": []\x7d").1 = 1 := by
  have h := childText_array_without_object sprintSample "a" [] (by simp)
  have hrow : tableRow sprintSample "a" (.slice [])
      = "| a        | M        | Array      | Field for 'a'              | Refer to list           |\n" := by
    decide
  have hd : unmarshalObject decodeSample "\x7b\"a\": []\x7d"
      = .ok (some ([("a", .slice [])], [("a", .slice [])])) := by rfl
  have hg : GenerateMarkdown sprintSample decodeSample "\x7b\"a\": []\x7d"
      = ("### Main Structure\n"
        ++ "| Parameter  | Required | Data Type | Description      | Example         |\n"
        ++ "|------------|----------|-----------|------------------|-----------------|\n"
        ++ "| a        | M        | Array      | Field for 'a'              | Refer to list           |\n"
        ++ "\n", none) := by
    simp only [GenerateMarkdown, hd, h.2.2.2.2, hrow]
    simp [headingLine, headerLabels, headerRule]
  refine ⟨h, hg, ?_⟩
  rw [hg]
  decide

/-- The title of a nested table is never empty, so its heading line is written. -/
theorem headingLine_structure (key : String) :
    headingLine (key ++ " Structure") = "### " ++ (key ++ " Structure") ++ "\n" := by
  have hne : key ++ " Structure" ≠ "" := by
    intro h
    have h2 := congrArg String.length h
    simp [String.length_append] at h2
    have h3 : " Structure".length = 10 := by decide
    omega
  simp [headingLine, hne]

/-- C12: a field with key `key` of a rendered object whose value is an Object (the
empty one included) is among the fields the second loop visits, and its nested
rendering, which that loop appends after the rows of the parent, is the one table
`generateObjectTable` renders from the value itself under the title
`<key> Structure`: the heading, the header, its rows and its own nested renderings;
for the empty Object the heading and the two header lines with no row.  The nested
renderings of the parent are those of its fields, one each. -/
theorem childText_object (sprintFloat : Float64 → String)
    (parent parentAgain : List (String × Value)) (key : String)
    (es again : List (String × Value))
    (hperm : parentAgain.Perm parent) (hmem : (key, Value.map es again) ∈ parent) :
    (∀ markdown title, generateObjectTable sprintFloat markdown
        (some (parent, parentAgain)) title
      = (markdown ++ (headingLine title ++ headerLabels ++ headerRule
          ++ concat (parent.map (fun kv => tableRow sprintFloat kv.1 kv.2))
          ++ concat (parentAgain.map (childText sprintFloat)) ++ "\n"), none)) ∧
    (key, Value.map es again) ∈ parentAgain ∧
    (parentAgain.map (childText sprintFloat)).Perm (parent.map (childText sprintFloat)) ∧
    childText sprintFloat (key, .map es again)
      = (generateObjectTable sprintFloat "" (some (es, again)) (key ++ " Structure")).1 ∧
    childText sprintFloat (key, .map es again)
      = "### " ++ (key ++ " Structure") ++ "\n" ++ headerLabels ++ headerRule
        ++ concat (es.map (fun kv => tableRow sprintFloat kv.1 kv.2))
        ++ concat (again.map (childText sprintFloat)) ++ "\n" ∧
    childText sprintFloat (key, .map [] [])
      = "### " ++ (key ++ " Structure") ++ "\n" ++ headerLabels ++ headerRule ++ "\n" := by
  have hchild : ∀ fs ag, childText sprintFloat (key, .map fs ag)
      = "### " ++ (key ++ " Structure") ++ "\n" ++ headerLabels ++ headerRule
        ++ concat (fs.map (fun kv => tableRow sprintFloat kv.1 kv.2))
        ++ concat (ag.map (childText sprintFloat)) ++ "\n" := by
    intro fs ag
    rw [childText_map, (render_spec sprintFloat).1]
    show "" ++ tableText sprintFloat (some (fs, ag)) (key ++ " Structure") = _
    rw [String.empty_append]
    simp only [tableText, headingLine_structure, JSONObject.range, JSONObject.rangeAgain]
  refine ⟨fun markdown title => (render_spec sprintFloat).1 _ markdown title,
    hperm.symm.subset hmem, hperm.map _, rfl, hchild es again, ?_⟩
  rw [hchild]
  simp [concat, String.append_assoc]

/-- C12 at `{"a": {}}`: two tables, "Main Structure" with the row of `a` (data type
"Object"), then "a Structure" with the header only. -/
theorem childText_object_witness :
    childText sprintSample ("a", .map [] [])
      = "### " ++ ("a" ++ " Structure") ++ "\n" ++ headerLabels ++ headerRule ++ "\n" ∧
    GenerateMarkdown sprintSample decodeSample "\x7b\"a\": \x7b\x7d\x7d"
      = ("### Main Structure\n"
        ++ "| Parameter  | Required | Data Type | Description      | Example         |\n"
        ++ "|------------|----------|-----------|------------------|-----------------|\n"
        ++ "| a        | M        | Object      | Field for 'a'              | Refer to sub-structure           |\n"
        ++ "### a Structure\n"
        ++ "| Parameter  | Required | Data Type | Description      | Example         |\n"
        ++ "|------------|----------|-----------|------------------|-----------------|\n"
        ++ "\n"
        ++ "\n", none) ∧
    tableCount (GenerateMarkdown sprintSample decodeSample "\x7b\"a\": \x7b\x7d\x7d").1
      = 2 := by
  have h := childText_object sprintSample [("a", .map [] [])] [("a", .map [] [])] "a" [] []
    (List.Perm.refl _) (List.mem_singleton.2 rfl)
  have hrow : tableRow sprintSample "a" (.map [] [])
      = "| a        | M        | Object      | Field for 'a'              | Refer to sub-structure           |\n" := by
    decide
  have hd : unmarshalObject decodeSample "\x7b\"a\": \x7b\x7d\x7d"
      = .ok (some ([("a", .map [] [])], [("a", .map [] [])])) := by rfl
  have hg : GenerateMarkdown sprintSample decodeSample "\x7b\"a\": \x7b\x7d\x7d"
      = ("### Main Structure\n"
        ++ "| Parameter  | Required | Data Type | Description      | Example         |\n"
        ++ "|------------|----------|-----------|------------------|-----------------|\n"
        ++ "| a        | M        | Object      | Field for 'a'              | Refer to sub-structure           |\n"
        ++ "### a Structure\n"
        ++ "| Parameter  | Required | Data Type | Description      | Example         |\n"
        ++ "|------------|----------|-----------|------------------|-----------------|\n"
        ++ "\n"
        ++ "\n", none) := by
    simp only [GenerateMarkdown, hd, h.1, List.map, h.2.2.2.2.2, hrow, concat]
    simp [headingLine, headerLabels, headerRule]
  refine ⟨h.2.2.2.2.2, hg, ?_⟩
  rw [hg]
  decide

/-- The text of the table of the nil map under the title "Main Structure". -/
theorem tableText_nil_main (sprintFloat : Float64 → String) :
    tableText sprintFloat none "Main Structure"
      = "### Main Structure\n"
        ++ "| Parameter  | Required | Data Type | Description      | Example         |\n"
        ++ "|------------|----------|-----------|------------------|-----------------|\n"
        ++ "\n" := by
  simp [tableText, headingLine, headerLabels, headerRule, JSONObject.range,
    JSONObject.rangeAgain, concat]

/-- What `GenerateMarkdown` returns, by the outcome of the unmarshalling. -/
theorem GenerateMarkdown_eq (sprintFloat : Float64 → String)
    (decode : String → Except Error Value) (inputJSON : String) :
    GenerateMarkdown sprintFloat decode inputJSON =
      match unmarshalObject decode inputJSON with
      | .error err => ("", some ("error parsing JSON: " ++ err))
      | .ok inputData => (tableText sprintFloat inputData "Main Structure", none) := by
  unfold GenerateMarkdown
  cases unmarshalObject decode inputJSON with
  | error err => rfl
  | ok inputData =>
    simp only [(render_spec sprintFloat).1, String.empty_append]

/-- C13 (counterexample): the well-formed text `null`, whose top-level value is not
an Object, gives no error: the map is left nil and rendered as a table with the
header only. -/
theorem GenerateMarkdown_null_counterexample :
    decodeSample "null" = .ok Value.nil ∧
    Value.nil.kind ≠ Kind.object ∧
    GenerateMarkdown sprintSample decodeSample "null"
      = ("### Main Structure\n"
        ++ "| Parameter  | Required | Data Type | Description      | Example         |\n"
        ++ "|------------|----------|-----------|------------------|-----------------|\n"
        ++ "\n", none) ∧
    (GenerateMarkdown sprintSample decodeSample "null").2 = none := by
  have hd : unmarshalObject decodeSample "null" = .ok none := by rfl
  have hg : GenerateMarkdown sprintSample decodeSample "null"
      = ("### Main Structure\n"
        ++ "| Parameter  | Required | Data Type | Description      | Example         |\n"
        ++ "|------------|----------|-----------|------------------|-----------------|\n"
        ++ "\n", none) := by
    rw [GenerateMarkdown_eq, hd]
    simp only [tableText_nil_main]
  refine ⟨rfl, by decide, hg, ?_⟩
  rw [hg]

/-- C13 (amended): `GenerateMarkdown` returns an error and the empty text for every
input whose top-level JSON value is a boolean, a number, a string or an array; for
an input whose top-level value is null it returns no error and the text of a table
titled "Main Structure" with the header only. -/
theorem GenerateMarkdown_not_object (sprintFloat : Float64 → String)
    (decode : String → Except Error Value) (inputJSON : String) (v : Value)
    (hd : decode inputJSON = .ok v)
    (hk : v.kind = .boolean ∨ v.kind = .number ∨ v.kind = .string ∨ v.kind = .array) :
    (∃ err, GenerateMarkdown sprintFloat decode inputJSON = ("", some err)) ∧
    (∀ input, decode input = .ok Value.nil →
      GenerateMarkdown sprintFloat decode input
        = ("### Main Structure\n"
          ++ "| Parameter  | Required | Data Type | Description      | Example         |\n"
          ++ "|------------|----------|-----------|------------------|-----------------|\n"
          ++ "\n", none)) := by
  constructor
  · rw [GenerateMarkdown_eq]
    unfold unmarshalObject
    rw [hd]
    cases v <;> first
      | exact ⟨_, rfl⟩
      | (simp [Value.kind] at hk)
  · intro input hnil
    rw [GenerateMarkdown_eq]
    unfold unmarshalObject
    rw [hnil]
    simp only [tableText_nil_main]

/-- C13 (amended) at the text `[]`: an error and no text. -/
theorem GenerateMarkdown_not_object_witness :
    (∃ err, GenerateMarkdown sprintSample decodeSample "[]" = ("", some err)) ∧
    GenerateMarkdown sprintSample decodeSample "[]"
      = ("", some ("error parsing JSON: "
          ++ "json: cannot unmarshal array into Go value of type main.JSONObject")) :=
  ⟨(GenerateMarkdown_not_object sprintSample decodeSample "[]" (.slice []) rfl
      (Or.inr (Or.inr (Or.inr rfl)))).1, rfl⟩

/-- C14: `GenerateMarkdown` returns an error exactly when the unmarshalling of the
input into a `JSONObject` fails, and then the text is empty; when it succeeds, there
is no error and the text is what `generateObjectTable` appends to the empty buffer
for the map and the title "Main Structure".  The cut-off input `{"a":` gives an
error and the empty text. -/
theorem GenerateMarkdown_outcome (sprintFloat : Float64 → String)
    (decode : String → Except Error Value) (inputJSON : String) :
    (GenerateMarkdown sprintFloat decode inputJSON =
      match unmarshalObject decode inputJSON with
      | .error err => ("", some ("error parsing JSON: " ++ err))
      | .ok inputData =>
        ((generateObjectTable sprintFloat "" inputData "Main Structure").1, none)) ∧
    ((GenerateMarkdown sprintFloat decode inputJSON).2 ≠ none ↔
      ∃ err, unmarshalObject decode inputJSON = .error err) ∧
    ((GenerateMarkdown sprintFloat decode inputJSON).2 ≠ none →
      (GenerateMarkdown sprintFloat decode inputJSON).1 = "") ∧
    (∀ inputData markdown, generateObjectTable sprintFloat markdown inputData
        "Main Structure"
      = (markdown ++ (generateObjectTable sprintFloat "" inputData "Main Structure").1,
          none)) ∧
    decodeSample "\x7b\"a\":" = .error "unexpected end of JSON input" ∧
    GenerateMarkdown sprintFloat decodeSample "\x7b\"a\":"
      = ("", some ("error parsing JSON: " ++ "unexpected end of JSON input")) := by
  have hg := GenerateMarkdown_eq sprintFloat decode inputJSON
  have ht : ∀ inputData, (generateObjectTable sprintFloat "" inputData "Main Structure").1
      = tableText sprintFloat inputData "Main Structure" := by
    intro inputData
    rw [(render_spec sprintFloat).1]
    exact String.empty_append _
  refine ⟨?_, ?_, ?_, ?_, rfl, rfl⟩
  · rw [hg]
    cases unmarshalObject decode inputJSON with
    | error err => rfl
    | ok inputData => simp only [ht]
  · rw [hg]
    cases unmarshalObject decode inputJSON with
    | error err => simp
    | ok inputData => simp
  · rw [hg]
    cases unmarshalObject decode inputJSON with
    | error err => simp
    | ok inputData => simp
  · intro inputData markdown
    rw [(render_spec sprintFloat).1, ht]

/-- C15: for every map, every array, every title and every buffer content,
`generateObjectTable`, its second loop and `generateArrayTable` return no error;
the branches that pass on the error of a recursive call are never taken, so that
`GenerateMarkdown` returns no error once the unmarshalling has succeeded. -/
theorem render_no_error (sprintFloat : Float64 → String) :
    (∀ (data : JSONObject) (markdown title : String),
      (generateObjectTable sprintFloat markdown data title).2 = none) ∧
    (∀ (a : List Value) (markdown title : String),
      (generateArrayTable sprintFloat markdown a title).2 = none) ∧
    (∀ (es : List (String × Value)) (markdown : String),
      (nestedTables sprintFloat markdown es).2 = none) ∧
    (∀ (decode : String → Except Error Value) (inputJSON : String) (inputData : JSONObject),
      unmarshalObject decode inputJSON = .ok inputData →
      (GenerateMarkdown sprintFloat decode inputJSON).2 = none) := by
  refine ⟨fun data markdown title => ?_, fun a markdown title => ?_,
    fun es markdown => ?_, fun decode inputJSON inputData h => ?_⟩
  · rw [(render_spec sprintFloat).1]
  · rw [(render_spec sprintFloat).2.2]
  · rw [(render_spec sprintFloat).2.1]
  · rw [GenerateMarkdown_eq, h]

/-- C16: the result of `GenerateMarkdown` depends on the run only through the value
decoded from the input, iteration orders of its maps included: two invocations whose
decoding gives the same value return the same text and the same error, and the text
is a function of that value. -/
theorem GenerateMarkdown_deterministic (sprintFloat : Float64 → String)
    (decode₁ decode₂ : String → Except Error Value) (inputJSON : String)
    (h : decode₁ inputJSON = decode₂ inputJSON) :
    GenerateMarkdown sprintFloat decode₁ inputJSON
      = GenerateMarkdown sprintFloat decode₂ inputJSON ∧
    (∀ es again, decode₁ inputJSON = .ok (Value.map es again) →
      GenerateMarkdown sprintFloat decode₂ inputJSON
        = (tableText sprintFloat (some (es, again)) "Main Structure", none)) := by
  have hu : unmarshalObject decode₁ inputJSON = unmarshalObject decode₂ inputJSON := by
    unfold unmarshalObject
    rw [h]
  constructor
  · rw [GenerateMarkdown_eq, GenerateMarkdown_eq, hu]
  · intro es again hd
    rw [GenerateMarkdown_eq, ← hu]
    unfold unmarshalObject
    rw [hd]

/-- C16 at the text `{"a": "x"}`, decoded alike by two decoders that differ on other
texts. -/
theorem GenerateMarkdown_deterministic_witness :
    GenerateMarkdown sprintSample decodeSample "\x7b\"a\": \"x\"\x7d"
      = GenerateMarkdown sprintSample
        (fun _ => .ok (.map [("a", .string "x")] [("a", .string "x")]))
        "\x7b\"a\": \"x\"\x7d" :=
  (GenerateMarkdown_deterministic sprintSample decodeSample
    (fun _ => .ok (.map [("a", .string "x")] [("a", .string "x")]))
    "\x7b\"a\": \"x\"\x7d" rfl).1

/-- The scan of the array starting from the data type `dataType` ends with the name
of the kind of the last classified element, or with `dataType` when there is
none. -/
theorem foldl_arrayElemType_lastClassified (dataType : String) (v : List Value) :
    v.foldl arrayElemType dataType =
      match lastClassified v with
      | some k => arrayTypeName k
      | none => dataType := by
  induction v using List.reverseRecOn with
  | nil => rfl
  | append_singleton w x ih =>
    rw [List.foldl_append, List.foldl_cons, List.foldl_nil]
    by_cases hx : x.kind.isClassified = true
    · have h1 : lastClassified (w ++ [x]) = some x.kind := by
        simp [lastClassified, List.find?, hx]
      rw [h1, arrayElemType_classified _ x hx]
    · have hx2 : x.kind.isClassified = false := by
        cases h : x.kind.isClassified with
        | false => rfl
        | true => exact absurd h hx
      have h1 : lastClassified (w ++ [x]) = lastClassified w := by
        simp [lastClassified, List.find?, hx2]
      rw [h1, arrayElemType_unclassified _ x hx2, ih]

/-- C17: for every non-empty array the data type is decided by the last element, in
array order, that is a string, a boolean or a number: "Array String",
"Array Boolean" or "Array Number" by the kind of that element; without such an
element (objects, nulls, nested arrays only) it is "Array Object".  The example
text is "Refer to list" in every case. -/
theorem getTypeAndExample_lastClassified (sprintFloat : Float64 → String)
    (v : List Value) (hne : v ≠ []) :
    getTypeAndExample sprintFloat (.slice v) =
      (match lastClassified v with
        | some .string => "Array String"
        | some .boolean => "Array Boolean"
        | some .number => "Array Number"
        | _ => "Array Object", "Refer to list") ∧
    (∀ k, lastClassified v = some k → k = .string ∨ k = .boolean ∨ k = .number) ∧
    (lastClassified v = none ↔ ∀ x ∈ v, x.kind.isClassified = false) := by
  have hlen : ¬ v.length = 0 := fun h => hne (List.length_eq_zero.1 h)
  have hdt : arrayDataType v = v.foldl arrayElemType "Array Object" := by
    simp only [arrayDataType, if_neg hlen]
  have hk : ∀ k, lastClassified v = some k → k.isClassified = true := by
    intro k hk
    simp only [lastClassified, Option.map_eq_some'] at hk
    obtain ⟨x, hx, rfl⟩ := hk
    have := List.find?_some hx
    simpa using this
  refine ⟨?_, ?_, ?_⟩
  · show (arrayDataType v, "Refer to list") = _
    rw [hdt, foldl_arrayElemType_lastClassified]
    cases h : lastClassified v with
    | none => rfl
    | some k => cases k <;> rfl
  · intro k h
    have := hk k h
    cases k <;> simp [Kind.isClassified] at this ⊢
  · simp [lastClassified, List.find?_eq_none]

/-- C17 at `[{}, "a", 1, null]`: the number is the last classified element, the
array is an "Array Number". -/
theorem getTypeAndExample_lastClassified_witness :
    getTypeAndExample sprintSample
        (.slice [.map [] [], .string "a", .float64 float1, .nil])
      = ("Array Number", "Refer to list") ∧
    lastClassified [.map [] [], .string "a", .float64 float1, .nil] = some .number :=
  ⟨(getTypeAndExample_lastClassified sprintSample
      [.map [] [], .string "a", .float64 float1, .nil] (by simp)).1, by decide⟩

/-- The value of a field is no deeper than the fields. -/
theorem depth_le_fieldsDepth (es : List (String × Value)) (key : String) (value : Value)
    (h : (key, value) ∈ es) : value.depth ≤ fieldsDepth es := by
  induction es with
  | nil => cases h
  | cons kv rest ih =>
    obtain ⟨k, v⟩ := kv
    simp only [fieldsDepth]
    rcases List.mem_cons.1 h with heq | hmem
    · cases heq
      exact Nat.le_max_left _ _
    · exact Nat.le_trans (ih hmem) (Nat.le_max_right _ _)

/-- An element is no deeper than the elements. -/
theorem depth_le_elemsDepth (a : List Value) (x : Value) (h : x ∈ a) :
    x.depth ≤ elemsDepth a := by
  induction a with
  | nil => cases h
  | cons y ys ih =>
    simp only [elemsDepth]
    rcases List.mem_cons.1 h with heq | hmem
    · cases heq
      exact Nat.le_max_left _ _
    · exact Nat.le_trans (ih hmem) (Nat.le_max_right _ _)

/-- A map taken out of an interface value has the depth of the value. -/
theorem depth_asMap (value : Value) (m : JSONObject) (h : asMap value = some m) :
    m.depth = value.depth := by
  cases value <;> simp only [asMap, Option.some.injEq] at h <;> cases h
  · rfl
  · simp [JSONObject.depth, Value.depth]

/-- Every map has depth at least 1. -/
theorem JSONObject.one_le_depth (d : JSONObject) : 1 ≤ d.depth := by
  cases d with
  | none => exact Nat.le_refl _
  | some m => simp only [JSONObject.depth]; omega

/-- A nested call is made on a map of smaller nesting depth. -/
theorem Calls.depth_lt {d d' : JSONObject} (h : Calls d d') : d'.depth < d.depth := by
  obtain ⟨key, value, hmem, hcall⟩ := h
  have hv : value.depth < d.depth := by
    cases d with
    | none => cases hmem
    | some m =>
      have := depth_le_fieldsDepth m.2 key value hmem
      simp only [JSONObject.depth]
      have := Nat.le_max_right (fieldsDepth m.1) (fieldsDepth m.2)
      omega
  rcases hcall with hmap | ⟨a, ha, hsel, hne⟩
  · rw [depth_asMap value d' hmap]
    exact hv
  · rcases selectTarget_spec a none with ⟨h1, _⟩ | ⟨i, es, again, hi, h1, _⟩
    · rw [hsel] at h1
      exact absurd h1 hne
    · rw [hsel] at h1
      have hle := depth_le_elemsDepth a _ (List.getElem?_mem hi)
      have hd : d'.depth = (Value.map es again).depth := by
        rw [h1]
        simp [JSONObject.depth, Value.depth]
      have hva : value.depth = 1 + elemsDepth a ∨ a = [] := by
        cases value <;> simp only [asSlice, Option.some.injEq] at ha <;> cases ha
        · exact Or.inr rfl
        · exact Or.inl (by simp [Value.depth])
      rcases hva with h2 | h2
      · omega
      · subst h2
        cases List.getElem?_mem hi

/-- A chain of nested calls is no longer than the nesting depth of the map it starts
from. -/
theorem chain_length_le_depth (l : List JSONObject) (hl : List.Chain' Calls l) :
    ∀ d, l.head? = some d → l.length ≤ d.depth := by
  induction l with
  | nil => intro d h; cases h
  | cons x xs ih =>
    intro d h
    simp only [List.head?_cons, Option.some.injEq] at h
    subst h
    cases xs with
    | nil => exact JSONObject.one_le_depth x
    | cons y ys =>
      rw [List.chain'_cons] at hl
      have h1 := ih hl.2 y rfl
      have h2 := hl.1.depth_lt
      simp only [List.length_cons] at h1 ⊢
      omega

/-- C18: rendering is total: for every map, array, title and buffer content
`generateObjectTable` and `generateArrayTable` return a buffer, with no error; every
nested call of `generateObjectTable` (for a field's map, or for the map selected from
a field's array) is made on a map of smaller nesting depth, so that a chain of
nested calls is no longer than the nesting depth of the map it starts from;
`inferRequired` and `getTypeAndExample` return a result on every kind of value. -/
theorem render_total (sprintFloat : Float64 → String) :
    (∀ (data : JSONObject) (markdown title : String),
      ∃ text, generateObjectTable sprintFloat markdown data title = (text, none)) ∧
    (∀ (a : List Value) (markdown title : String),
      ∃ text, generateArrayTable sprintFloat markdown a title = (text, none)) ∧
    (∀ d d', Calls d d' → d'.depth < d.depth) ∧
    (∀ l : List JSONObject, List.Chain' Calls l →
      ∀ d, l.head? = some d → l.length ≤ d.depth) ∧
    (∀ value, inferRequired value = "O" ∨ inferRequired value = "M") ∧
    (∀ value, (getTypeAndExample sprintFloat value).1 ∈
      ["String", "Number", "Boolean", "Object",
        "Array", "Array Object", "Array String", "Array Boolean", "Array Number"]) := by
  refine ⟨fun data markdown title => ⟨_, (render_spec sprintFloat).1 data markdown title⟩,
    fun a markdown title => ⟨_, (render_spec sprintFloat).2.2 a markdown title⟩,
    fun d d' h => h.depth_lt, chain_length_le_depth, fun value => ?_,
    getTypeAndExample_dataType_mem sprintFloat⟩
  have h := inferRequired_mem value
  simpa using h

/-- An array with a string, boolean or number has a last such element. -/
theorem lastClassified_isSome (v : List Value)
    (hs : ∃ x ∈ v, x.kind.isClassified = true) :
    ∃ k, lastClassified v = some k ∧ k.isClassified = true := by
  obtain ⟨x, hx, hc⟩ := hs
  cases hf : v.reverse.find? (fun x => x.kind.isClassified) with
  | none =>
    rw [List.find?_eq_none] at hf
    exact absurd hc (hf x (List.mem_reverse.2 hx))
  | some y =>
    refine ⟨y.kind, by simp [lastClassified, hf], ?_⟩
    have := List.find?_some hf
    simpa using this

/-- C20: for every field whose array holds both a string, boolean or number and an
Object with at least one field, the data type of the row of the field is
"Array String", "Array Boolean" or "Array Number", not "Array Object", and the
nested rendering of the field is none the less the table, titled `<key> Structure`,
of the widest Object element of the array, the earliest among equals. -/
theorem mixed_array_field (sprintFloat : Float64 → String) (key : String) (v : List Value)
    (hs : ∃ x ∈ v, x.kind.isClassified = true)
    (ho : ∃ y ∈ v, ∃ m, asMap y = some m ∧ 0 < m.len) :
    ((getTypeAndExample sprintFloat (.slice v)).1 = "Array String" ∨
      (getTypeAndExample sprintFloat (.slice v)).1 = "Array Boolean" ∨
      (getTypeAndExample sprintFloat (.slice v)).1 = "Array Number") ∧
    (getTypeAndExample sprintFloat (.slice v)).1 ≠ "Array Object" ∧
    ∃ (i : Nat) (es again : List (String × Value)),
      v[i]? = some (Value.map es again) ∧ 0 < es.length ∧
      (∀ x ∈ v, ∀ m, asMap x = some m → m.len ≤ es.length) ∧
      (∀ (j : Nat) (x : Value) (m : JSONObject),
        j < i → v[j]? = some x → asMap x = some m → m.len < es.length) ∧
      childText sprintFloat (key, .slice v)
        = "### " ++ (key ++ " Structure") ++ "\n" ++ headerLabels ++ headerRule
          ++ concat (es.map (fun kv => tableRow sprintFloat kv.1 kv.2))
          ++ concat (again.map (childText sprintFloat)) ++ "\n" := by
  have hne : v ≠ [] := by
    obtain ⟨x, hx, _⟩ := hs
    intro h
    rw [h] at hx
    cases hx
  have hlen : ¬ v.length = 0 := fun h => hne (List.length_eq_zero.1 h)
  obtain ⟨k, hk, hkc⟩ := lastClassified_isSome v hs
  have hdt : (getTypeAndExample sprintFloat (.slice v)).1 = arrayTypeName k := by
    show arrayDataType v = _
    simp only [arrayDataType, if_neg hlen]
    rw [foldl_arrayElemType_lastClassified, hk]
  have hname : arrayTypeName k = "Array String" ∨ arrayTypeName k = "Array Boolean" ∨
      arrayTypeName k = "Array Number" := by
    cases k <;> simp [Kind.isClassified] at hkc <;> simp [arrayTypeName]
  refine ⟨by rw [hdt]; exact hname, ?_, ?_⟩
  · rw [hdt]
    rcases hname with h | h | h <;> rw [h] <;> decide
  · rcases selectTarget_spec v none with ⟨_, h2⟩ | ⟨i, es, again, hi, h1, h2, h3, h4⟩
    · obtain ⟨y, hy, m, hm, hpos⟩ := ho
      have hle : m.len ≤ 0 := h2 y hy m hm
      omega
    · refine ⟨i, es, again, hi, h2, h3, h4, ?_⟩
      rw [childText_slice, generateArrayTable_eq, h1]
      show (generateObjectTable sprintFloat "" (some (es, again)) (key ++ " Structure")).1 = _
      rw [(render_spec sprintFloat).1]
      show "" ++ tableText sprintFloat (some (es, again)) (key ++ " Structure") = _
      rw [String.empty_append]
      simp only [tableText, headingLine_structure, JSONObject.range, JSONObject.rangeAgain]

/-- C20 at the field `"list": ["s", {"x":1}]`: the row says "Array String" and the
table "list Structure" of `{"x":1}` is rendered. -/
theorem mixed_array_field_witness :
    (getTypeAndExample sprintSample (.slice [.string "s", .map entriesX entriesX])).1
      = "Array String" ∧
    ∃ (i : Nat) (es again : List (String × Value)),
      [Value.string "s", Value.map entriesX entriesX][i]? = some (Value.map es again) ∧
      0 < es.length ∧
      (∀ x ∈ [Value.string "s", Value.map entriesX entriesX],
        ∀ m, asMap x = some m → m.len ≤ es.length) ∧
      (∀ (j : Nat) (x : Value) (m : JSONObject),
        j < i → [Value.string "s", Value.map entriesX entriesX][j]? = some x →
        asMap x = some m → m.len < es.length) ∧
      childText sprintSample ("list", .slice [.string "s", .map entriesX entriesX])
        = "### " ++ ("list" ++ " Structure") ++ "\n" ++ headerLabels ++ headerRule
          ++ concat (es.map (fun kv => tableRow sprintSample kv.1 kv.2))
          ++ concat (again.map (childText sprintSample)) ++ "\n" :=
  ⟨by decide,
    (mixed_array_field sprintSample "list" [.string "s", .map entriesX entriesX]
      ⟨.string "s", by simp, by decide⟩
      ⟨.map entriesX entriesX, by simp, some (entriesX, entriesX), rfl, by decide⟩).2.2⟩

/-- The map with `n` maps nested below it has nesting depth `n + 1`. -/
theorem depth_nestValue (n : Nat) :
    (Value.map (nestEntries n) (nestEntries n)).depth = n + 1 := by
  induction n with
  | zero => rfl
  | succ n ih =>
    simp only [Value.depth] at ih
    simp only [Value.depth, nestEntries, fieldsDepth]
    omega

/-- A map stored by the unmarshalling behind the depth limit is no deeper than the
limit. -/
theorem unmarshalObject_depth_le (parse : String → Except Error Value)
    (inputJSON : String) (data : JSONObject)
    (h : unmarshalObject (withDepthLimit parse) inputJSON = .ok data) :
    data.depth ≤ maxNestingDepth := by
  unfold unmarshalObject withDepthLimit at h
  cases hp : parse inputJSON with
  | error err => rw [hp] at h; cases h
  | ok v =>
    rw [hp] at h
    by_cases hd : maxNestingDepth < v.depth
    · simp only [hd, if_true] at h
      cases h
    · simp only [hd, if_false] at h
      cases v <;> simp only [Except.ok.injEq] at h <;> first
        | (subst h; simp [JSONObject.depth, maxNestingDepth]; done)
        | (subst h
           simp only [Value.depth] at hd
           simp only [JSONObject.depth]
           omega)
        | cases h

/-- C19: there is a maximum nesting depth, the `maxNestingDepth` = 10000 of
`encoding/json`, such that for every input whose value nests deeper
`GenerateMarkdown` returns a failure and no Markdown, without rendering anything;
an input that is not deeper passes the limit, and every map that is rendered is at
most that deep, so that no chain of nested calls of `generateObjectTable` is longer
than the limit. -/
theorem GenerateMarkdown_depth_limit (sprintFloat : Float64 → String)
    (parse : String → Except Error Value) (inputJSON : String) (v : Value)
    (hp : parse inputJSON = .ok v) (hdeep : maxNestingDepth < v.depth) :
    GenerateMarkdown sprintFloat (withDepthLimit parse) inputJSON
      = ("", some ("error parsing JSON: " ++ "exceeded max depth")) ∧
    unmarshalObject (withDepthLimit parse) inputJSON = .error "exceeded max depth" ∧
    (∀ input w, parse input = .ok w → w.depth ≤ maxNestingDepth →
      withDepthLimit parse input = .ok w) ∧
    (∀ input data, unmarshalObject (withDepthLimit parse) input = .ok data →
      data.depth ≤ maxNestingDepth) ∧
    (∀ input data, unmarshalObject (withDepthLimit parse) input = .ok data →
      ∀ l : List JSONObject, List.Chain' Calls l → l.head? = some data →
      l.length ≤ maxNestingDepth) := by
  have hw : withDepthLimit parse inputJSON = .error "exceeded max depth" := by
    unfold withDepthLimit
    rw [hp]
    exact if_pos hdeep
  have hu : unmarshalObject (withDepthLimit parse) inputJSON
      = .error "exceeded max depth" := by
    unfold unmarshalObject
    rw [hw]
  refine ⟨?_, hu, ?_, unmarshalObject_depth_le parse, ?_⟩
  · rw [GenerateMarkdown_eq, hu]
  · intro input w hpw hle
    unfold withDepthLimit
    rw [hpw]
    exact if_neg (Nat.not_lt.2 hle)
  · intro input data h l hl hhead
    exact Nat.le_trans (chain_length_le_depth l hl data hhead)
      (unmarshalObject_depth_le parse input data h)

/-- C19 at a text that nests 10001 objects through the field `a`: the failure
"exceeded max depth" and no Markdown. -/
theorem GenerateMarkdown_depth_limit_witness :
    maxNestingDepth < (Value.map (nestEntries 10000) (nestEntries 10000)).depth ∧
    GenerateMarkdown sprintSample
        (withDepthLimit (fun _ => .ok (.map (nestEntries 10000) (nestEntries 10000))))
        "nested 10001 deep"
      = ("", some ("error parsing JSON: " ++ "exceeded max depth")) :=
  ⟨by rw [depth_nestValue]; decide,
    (GenerateMarkdown_depth_limit sprintSample
      (fun _ => .ok (.map (nestEntries 10000) (nestEntries 10000))) "nested 10001 deep"
      (.map (nestEntries 10000) (nestEntries 10000)) rfl
      (by rw [depth_nestValue]; decide)).1⟩

end JsonToMarkdown
